import Mathlib

/-!
# Array conversion between the host (VTK) and compute (VTK-m) worlds

A shallow embedding of `Accelerators/Vtkm/vtkmlib/ArrayConverters.cxx`.

Host objects live in an object table (`Heap`); a pointer is an index into it and
`nullptr` is `none`.  Stateful routines take the table and return the new one.
Scalar values are carried as integers: the converters only move them.

The host-to-compute routines return `none` where the C++ behaviour is undefined:
on a pointer outside the table and on an array without a name (the field name is
a `std::string` built from `GetName()`).  The compute-to-host routines are total:
an update through a pointer outside the table changes nothing, and the theorems
that need a live object say so.

Loop counters and sizes are unbounded naturals: the 32/64-bit counters of the
source cannot wrap on collections that fit in memory.
-/

namespace VTK

/-! ## Host world -/

/-- Address of a host object: its index in the object table. -/
abbrev Ptr := Nat

/-- The scalar type tags a `vtkDataArray` reports through `GetDataType()`. -/
inductive ScalarType where
  | VTK_BIT
  | VTK_CHAR
  | VTK_SIGNED_CHAR
  | VTK_UNSIGNED_CHAR
  | VTK_SHORT
  | VTK_UNSIGNED_SHORT
  | VTK_INT
  | VTK_UNSIGNED_INT
  | VTK_LONG
  | VTK_UNSIGNED_LONG
  | VTK_FLOAT
  | VTK_DOUBLE
  | VTK_ID_TYPE
  | VTK_LONG_LONG
  | VTK_UNSIGNED_LONG_LONG
  deriving DecidableEq, Repr

/-- Modelled from the spec: the `vtkTemplateMacro` case list (declared in
`vtkSetGet.h`, not part of the excerpt) enumerates the fixed numeric type set,
signed and unsigned integers of every width and both floating-point types; the
bit-packed type is not in it. -/
def vtkTemplateMacro : ScalarType → Bool
  | .VTK_BIT => false
  | _ => true

/-- Concrete class of a host array, as seen by `FastDownCast`. -/
inductive ArrayClass where
  | AOS
  | SOA
  | Other
  deriving DecidableEq, Repr

/-- Identity of a memory block: allocated by a host array for itself, or
allocated outside the host world (by the compute runtime). -/
inductive Address where
  | ofArray (owner : Ptr)
  | external (id : Nat)
  deriving DecidableEq, Repr

/-- A memory block: its identity and the scalars it holds. -/
structure Buffer where
  address : Address
  contents : List Int
  deriving DecidableEq, Repr

/-- A deallocation function pointer, identified by a token. -/
abbrev DeleteFunction := Nat

/-- State of a host array object (`vtkDataArray`).  `Size` is `MaxId + 1`, the
number of flat values. -/
structure vtkDataArray where
  DataType : ScalarType
  Class : ArrayClass
  Name : Option String
  NumberOfComponents : Nat
  Size : Nat
  Array : Option Buffer
  FreeFunction : Option DeleteFunction
  ReferenceCount : Nat
  deriving DecidableEq, Repr

/-- The object table of the host world. -/
abbrev Heap := List vtkDataArray

/-- Modelled from the spec: `GetNumberOfTuples()` of the host array (not part of
the excerpt), the logical length: `(MaxId + 1) / NumberOfComponents`. -/
def vtkDataArray.GetNumberOfTuples (a : vtkDataArray) : Nat :=
  a.Size / a.NumberOfComponents

/-- Modelled from the spec: the values the host array gives by flat index
(get-by-flat-index, not part of the excerpt), in flat-index order. -/
def vtkDataArray.Values (a : vtkDataArray) : List Int :=
  match a.Array with
  | some b => b.contents.take a.Size
  | none => []

/-- Applies `f` to the object at `p`; a pointer outside the table is left alone. -/
def Heap.update (h : Heap) (p : Ptr) (f : vtkDataArray → vtkDataArray) : Heap :=
  match h[p]? with
  | some a => h.set p (f a)
  | none => h

/-- Modelled from the spec: `Register(nullptr)` of the host object (not part of
the excerpt): the reference count is incremented. -/
def Register (h : Heap) (p : Ptr) : Heap :=
  h.update p (fun a => { a with ReferenceCount := a.ReferenceCount + 1 })

/-- Modelled from the spec: `UnRegister`, `Delete()` and `FastDelete()` of the
host object (not part of the excerpt), the release: one reference fewer; an
object whose count reaches zero is destroyed. -/
def UnRegister (h : Heap) (p : Ptr) : Heap :=
  h.update p (fun a => { a with ReferenceCount := a.ReferenceCount - 1 })

/-- Modelled from the spec: `SetName` of the host array (not part of the
excerpt). -/
def SetName (h : Heap) (p : Ptr) (name : String) : Heap :=
  h.update p (fun a => { a with Name := some name })

/-- Modelled from the spec: `vtkAOSDataArrayTemplate<ValueType>::New()` (not part
of the excerpt), the new host array header: a fresh, unnamed, empty
interleaved array holding one reference. -/
def vtkAOSDataArrayTemplate.New (ValueType : ScalarType) : vtkDataArray :=
  { DataType := ValueType, Class := ArrayClass.AOS, Name := none,
    NumberOfComponents := 1, Size := 0, Array := none, FreeFunction := none,
    ReferenceCount := 1 }

/-- A slot of a host attribute group: a data array, or an abstract array that is
not a data array (only its name matters). -/
inductive Slot where
  | data (p : Ptr)
  | other (name : Option String)
  deriving DecidableEq, Repr

/-- A host attribute group (`vtkPointData`, `vtkCellData`). -/
abbrev vtkFieldData := List Slot

/-- Modelled from the spec: `GetArray(i)` of a group (not part of the excerpt),
seen on slot `i`: null unless the slot holds a data array. -/
def Slot.GetArray : Slot → Option Ptr
  | .data p => some p
  | .other _ => none

/-- The name under which a slot is found: the name of the array it holds. -/
def Slot.GetName (h : Heap) : Slot → Option String
  | .data p => (h[p]?).bind (fun a => a.Name)
  | .other n => n

/-- Modelled from the spec: `SetArray(i, array)` of a group (not part of the
excerpt): when slot `i` holds another object, that object
is unregistered and `array` is installed and registered. -/
def vtkFieldData.SetArray (h : Heap) (fd : vtkFieldData) (i : Nat) (array : Ptr) :
    Heap × vtkFieldData :=
  match fd[i]? with
  | some (.data q) =>
    if q = array then (h, fd) else (Register (UnRegister h q) array, fd.set i (.data array))
  | some (.other _) => (Register h array, fd.set i (.data array))
  | none => (h, fd)

/-- Modelled from the spec: `AddArray` of `vtkFieldData` (not part of the
excerpt).  A group is keyed by array name and the last write wins: an array whose
name is already present replaces that entry, any other array is appended.  The
group holds a reference to what it stores. -/
def vtkFieldData.AddArray (h : Heap) (fd : vtkFieldData) (array : Ptr) :
    Heap × vtkFieldData :=
  match Slot.GetName h (.data array) with
  | none => (Register h array, fd ++ [.data array])
  | some name =>
    match fd.findIdx? (fun s => decide (Slot.GetName h s = some name)) with
    | some i => vtkFieldData.SetArray h fd i array
    | none => (Register h array, fd ++ [.data array])

/-- A host dataset: its point-data and cell-data groups. -/
structure vtkDataSet where
  PointData : vtkFieldData
  CellData : vtkFieldData
  deriving DecidableEq, Repr

/-- Modelled from the spec: the constant `vtkDataObject::FIELD_ASSOCIATION_POINTS`
(declared in `vtkDataObject.h`, not part of the excerpt), the point association. -/
def FIELD_ASSOCIATION_POINTS : Int := 0

/-- Modelled from the spec: the constant `vtkDataObject::FIELD_ASSOCIATION_CELLS`
(declared in `vtkDataObject.h`, not part of the excerpt), the cell association,
distinct from the point association. -/
def FIELD_ASSOCIATION_CELLS : Int := 1

/-! ## Compute world -/

/-- Shape of a handle's value type `T` over its component type: the component
itself, `Vec<C, N>`, or `Vec<Vec<C, M>, N>` (outer width `N`, inner width `M`). -/
inductive Shape where
  | Scalar
  | Vec (N : Nat)
  | VecOfVec (N M : Nat)
  deriving DecidableEq, Repr

/-- The value type `T` of an array handle. -/
structure ValueT where
  ComponentType : ScalarType
  shape : Shape
  deriving DecidableEq, Repr

/-- The portal tags of `vtkPortalTraits`. -/
inductive PortalTag where
  | vtkPortalOfScalarValues
  | vtkPortalOfVecOfValues
  | vtkPortalOfVecOfVecValues
  deriving DecidableEq, Repr

/-- Modelled from the spec: `vtkPortalTraits<T>::TagType` (declared in
`PortalTraits.h`, not part of the excerpt). -/
def vtkPortalTraits.TagType : Shape → PortalTag
  | .Scalar => .vtkPortalOfScalarValues
  | .Vec _ => .vtkPortalOfVecOfValues
  | .VecOfVec _ _ => .vtkPortalOfVecOfVecValues

/-- Modelled from the spec: `NUM_COMPONENTS_OUTER` of `vtkPortalTraits<T>`. -/
def vtkPortalTraits.NUM_COMPONENTS_OUTER : Shape → Nat
  | .Scalar => 1
  | .Vec N => N
  | .VecOfVec N _ => N

/-- Modelled from the spec: `NUM_COMPONENTS_INNER` of `vtkPortalTraits<T>`. -/
def vtkPortalTraits.NUM_COMPONENTS_INNER : Shape → Nat
  | .Scalar => 1
  | .Vec _ => 1
  | .VecOfVec _ M => M

/-- Modelled from the spec: `vtkPortalTraits<T>::NUM_COMPONENTS`, the product of
the outer and (if nested) inner widths. -/
def vtkPortalTraits.NUM_COMPONENTS : Shape → Nat
  | .Scalar => 1
  | .Vec N => N
  | .VecOfVec N M => N * M

/-- The two layout tags of a view over a host array. -/
inductive ContainerTag where
  | vtkAOSArrayContainerTag
  | vtkSOAArrayContainerTag
  deriving DecidableEq, Repr

/-- A value read through a portal. -/
inductive Value where
  | scalar (x : Int)
  | vec (c : List Int)
  | vecOfVec (c : List (List Int))
  deriving DecidableEq, Repr

/-- Owned-basic storage: the buffer it owns, its value count and the function
that frees the buffer. -/
structure BasicStorage where
  Array : Option Buffer
  NumberOfValues : Nat
  DeleteFunction : DeleteFunction
  deriving DecidableEq, Repr

/-- Modelled from the spec: `StealArray()` of the owned-basic storage (VTK-m, not
part of the excerpt), the destructive take-buffer operation.  It yields the
block and leaves the storage owning none.  The value count and the delete
function recorded in the storage stay readable: the converter asks for both
after the take and hands the block over with the storage's matching delete
function. -/
def BasicStorage.StealArray (s : BasicStorage) : Option Buffer × BasicStorage :=
  (s.Array, { s with Array := none })

/-- The concrete storage strategies: owned-basic, a layout-tagged view over a
host array (with the value count fixed when the view was made), or any other
strategy, readable only through its portal. -/
inductive ConcreteStorage where
  | Basic (s : BasicStorage)
  | View (tag : ContainerTag) (VTKArray : Ptr) (NumberOfValues : Nat)
  | Other (portal : List Value)
  deriving DecidableEq, Repr

/-- An array handle `ArrayHandle<T, S>`.  `Virtual` says that `S` is
`StorageTagVirtual`: the concrete storage is wrapped and its tag erased. -/
structure ArrayHandle where
  T : ValueT
  Virtual : Bool
  Storage : ConcreteStorage
  deriving DecidableEq, Repr

/-- Modelled from the spec: `GetNumberOfValues()` of a handle (VTK-m, not part of
the excerpt), the length of its sequence of values. -/
def ArrayHandle.GetNumberOfValues (handle : ArrayHandle) : Nat :=
  match handle.Storage with
  | .Basic s => s.NumberOfValues
  | .View _ _ n => n
  | .Other portal => portal.length

/-- The association of a compute field. -/
inductive Association where
  | ANY
  | WHOLE_MESH
  | POINTS
  | CELL_SET
  deriving DecidableEq, Repr

/-- A compute field.  `Data` is the type-erased handle; it is `none` in a
default-constructed field. -/
structure Field where
  Name : String
  FieldAssociation : Association
  AssocCellSetName : String
  Data : Option ArrayHandle
  deriving DecidableEq, Repr

/-- Modelled from the spec: the default-constructed field `vtkm::cont::Field()`
(VTK-m, not part of the excerpt), the empty field: no name, no handle. -/
def Field.empty : Field :=
  { Name := "", FieldAssociation := Association.ANY, AssocCellSetName := "", Data := none }

/-- A compute dataset: its ordered fields. -/
structure DataSet where
  Fields : List Field
  deriving DecidableEq, Repr

/-- Modelled from the spec: `AddField` of the compute dataset (VTK-m, not part of
the excerpt): the field is appended to the ordered collection. -/
def DataSet.AddField (dataset : DataSet) (f : Field) : DataSet :=
  { dataset with Fields := dataset.Fields ++ [f] }

/-! ## Host to compute: `namespace tovtkm` -/

/-- Modelled from the spec: the storage built by `StorageType storage(input)`
(declared in `Storage.h`, not part of the excerpt): a zero-copy view tagged
`TagType` over the host array `input`, exposing one value per tuple. -/
def tovtkm.Storage (TagType : ContainerTag) (input : Ptr) (a : vtkDataArray) :
    ConcreteStorage :=
  ConcreteStorage.View TagType input a.GetNumberOfTuples

/-- The type-erased handle `VariantArrayHandle vhandle(handle)` over the handle
`ArrayHandle<VType, TagType> handle(storage)`. -/
def tovtkm.vhandle (ValueType : ScalarType) (VType : Shape) (TagType : ContainerTag)
    (input : Ptr) (a : vtkDataArray) : Option ArrayHandle :=
  some { T := { ComponentType := ValueType, shape := VType }, Virtual := false,
         Storage := tovtkm.Storage TagType input a }

/-- Embeds `tovtkm::ConvertPointField<DataArrayType>`, where `DataArrayType` has
value type `ValueType` and container tag `TagType`. -/
def tovtkm.ConvertPointField (ValueType : ScalarType) (TagType : ContainerTag)
    (h : Heap) (input : Ptr) : Option Field :=
  match h[input]? with
  | none => none
  | some a =>
    let numComps := a.NumberOfComponents
    match a.Name with
    | none => none
    | some name =>
      match numComps with
      | 1 => some { Name := name, FieldAssociation := Association.POINTS, AssocCellSetName := "",
                    Data := tovtkm.vhandle ValueType Shape.Scalar TagType input a }
      | 2 => some { Name := name, FieldAssociation := Association.POINTS, AssocCellSetName := "",
                    Data := tovtkm.vhandle ValueType (Shape.Vec 2) TagType input a }
      | 3 => some { Name := name, FieldAssociation := Association.POINTS, AssocCellSetName := "",
                    Data := tovtkm.vhandle ValueType (Shape.Vec 3) TagType input a }
      | 4 => some { Name := name, FieldAssociation := Association.POINTS, AssocCellSetName := "",
                    Data := tovtkm.vhandle ValueType (Shape.Vec 4) TagType input a }
      | _ => some Field.empty

/-- Embeds `tovtkm::ConvertCellField<DataArrayType>`. -/
def tovtkm.ConvertCellField (ValueType : ScalarType) (TagType : ContainerTag)
    (h : Heap) (input : Ptr) : Option Field :=
  match h[input]? with
  | none => none
  | some a =>
    let numComps := a.NumberOfComponents
    match a.Name with
    | none => none
    | some name =>
      let cname := "cells"
      match numComps with
      | 1 => some { Name := name, FieldAssociation := Association.CELL_SET,
                    AssocCellSetName := cname,
                    Data := tovtkm.vhandle ValueType Shape.Scalar TagType input a }
      | 2 => some { Name := name, FieldAssociation := Association.CELL_SET,
                    AssocCellSetName := cname,
                    Data := tovtkm.vhandle ValueType (Shape.Vec 2) TagType input a }
      | 3 => some { Name := name, FieldAssociation := Association.CELL_SET,
                    AssocCellSetName := cname,
                    Data := tovtkm.vhandle ValueType (Shape.Vec 3) TagType input a }
      | 4 => some { Name := name, FieldAssociation := Association.CELL_SET,
                    AssocCellSetName := cname,
                    Data := tovtkm.vhandle ValueType (Shape.Vec 4) TagType input a }
      | _ => some Field.empty

/-- Embeds the typed `tovtkm::Convert<DataArrayType>(input, association)`. -/
def tovtkm.ConvertTyped (ValueType : ScalarType) (TagType : ContainerTag)
    (h : Heap) (input : Ptr) (association : Int) : Option Field :=
  if association = FIELD_ASSOCIATION_POINTS then
    tovtkm.ConvertPointField ValueType TagType h input
  else if association = FIELD_ASSOCIATION_CELLS then
    tovtkm.ConvertCellField ValueType TagType h input
  else
    some Field.empty

/-- Embeds `tovtkm::Convert(vtkDataArray*, int)`: the switch over the data type
with, in each case, the interleaved downcast tried first and the planar one
second. -/
def tovtkm.Convert (h : Heap) (input : Ptr) (association : Int) : Option Field :=
  match h[input]? with
  | none => none
  | some a =>
    let field := Field.empty
    if vtkTemplateMacro a.DataType then
      if a.Class = ArrayClass.AOS then
        tovtkm.ConvertTyped a.DataType ContainerTag.vtkAOSArrayContainerTag h input association
      else if a.Class = ArrayClass.SOA then
        tovtkm.ConvertTyped a.DataType ContainerTag.vtkSOAArrayContainerTag h input association
      else
        some field
    else
      some field

/-- Modelled from the spec: the flag `tovtkm::FieldsFlag::Points` (declared in
`ArrayConverters.h`, not part of the excerpt); points and cells are selectable
independently, each by a bit of its own. -/
def tovtkm.FieldsFlag.Points : Nat := 1

/-- Modelled from the spec: the flag `tovtkm::FieldsFlag::Cells` (declared in
`ArrayConverters.h`, not part of the excerpt). -/
def tovtkm.FieldsFlag.Cells : Nat := 2

/-- Modelled from the spec: the flag `tovtkm::FieldsFlag::None` (declared in
`ArrayConverters.h`, not part of the excerpt): no bit set. -/
def tovtkm.FieldsFlag.None : Nat := 0

/-- The body of either loop of `ProcessFields` over the slots of one group:
a null array is skipped, any other is converted and the field appended. -/
def tovtkm.ProcessFields.loop (h : Heap) (association : Int) :
    List Slot → DataSet → Option DataSet
  | [], dataset => some dataset
  | s :: rest, dataset =>
    match s.GetArray with
    | none => tovtkm.ProcessFields.loop h association rest dataset
    | some array =>
      match tovtkm.Convert h array association with
      | none => none
      | some pfield => tovtkm.ProcessFields.loop h association rest (dataset.AddField pfield)

/-- Embeds `tovtkm::ProcessFields(input, dataset, fields)`. -/
def tovtkm.ProcessFields (h : Heap) (input : vtkDataSet) (dataset : DataSet) (fields : Nat) :
    Option DataSet :=
  let afterPoints :=
    if fields &&& tovtkm.FieldsFlag.Points ≠ tovtkm.FieldsFlag.None then
      tovtkm.ProcessFields.loop h FIELD_ASSOCIATION_POINTS input.PointData dataset
    else
      some dataset
  match afterPoints with
  | none => none
  | some dataset1 =>
    if fields &&& tovtkm.FieldsFlag.Cells ≠ tovtkm.FieldsFlag.None then
      tovtkm.ProcessFields.loop h FIELD_ASSOCIATION_CELLS input.CellData dataset1
    else
      some dataset1

/-! ## Compute to host: `namespace fromvtkm` -/

/-- Modelled from the spec: `SetNumberOfComponents` of the host array (not part of
the excerpt).  The component count is a positive integer: the setter clamps it
to at least one. -/
def SetNumberOfComponents (h : Heap) (p : Ptr) (numComps : Nat) : Heap :=
  h.update p (fun a => { a with NumberOfComponents := max 1 numComps })

/-- Modelled from the spec: `SetNumberOfTuples` of an interleaved host array (not
part of the excerpt): the array allocates, for
itself, a block of `numTuples * NumberOfComponents` scalars.  The fresh block is
not initialised; its content is shown as zeros. -/
def SetNumberOfTuples (h : Heap) (p : Ptr) (numTuples : Nat) : Heap :=
  h.update p (fun a =>
    { a with Size := numTuples * a.NumberOfComponents,
             Array := some { address := Address.ofArray p,
                             contents := List.replicate (numTuples * a.NumberOfComponents) 0 },
             FreeFunction := none })

/-- Modelled from the spec: `SetValue(index, value)` of the host array (not part
of the excerpt), set-by-flat-index: writes one flat entry of the array's block. -/
def SetValue (h : Heap) (p : Ptr) (index : Nat) (value : Int) : Heap :=
  h.update p (fun a =>
    { a with Array := a.Array.map (fun b => { b with contents := b.contents.set index value }) })

/-- Modelled from the spec: `SetVoidArray(array, size, 0,
VTK_DATA_ARRAY_USER_DEFINED)` of the host array (not part of the excerpt), the
installation of an externally owned block: the host
array adopts the given block as its own. -/
def SetVoidArray (h : Heap) (p : Ptr) (array : Option Buffer) (size : Nat) : Heap :=
  h.update p (fun a => { a with Array := array, Size := size })

/-- Modelled from the spec: `SetArrayFreeFunction` of the host array (not part of
the excerpt): installs the deallocator of the adopted block. -/
def SetArrayFreeFunction (h : Heap) (p : Ptr) (f : DeleteFunction) : Heap :=
  h.update p (fun a => { a with FreeFunction := some f })

/-- Modelled from the spec: `portal.Get(i)`, the read-by-index interface of a
handle (VTK-m, not part of the excerpt).  A read outside the portal, or a component read
outside a vector, yields unspecified memory, shown as zero. -/
def portalGet (portal : List Value) (i : Nat) : Value :=
  portal.getD i (Value.scalar 0)

/-- A portal value used as a scalar. -/
def Value.toScalar : Value → Int
  | .scalar x => x
  | _ => 0

/-- Component `v[j]` of a flat vector value. -/
def Value.component : Value → Nat → Int
  | .vec c, j => c.getD j 0
  | _, _ => 0

/-- Component `v[j]` of a nested vector value: an inner vector. -/
def Value.inner : Value → Nat → List Int
  | .vecOfVec c, j => c.getD j []
  | _, _ => []

/-- Embeds `CopyArrayContents<vtkPortalOfVecOfVecValues>::operator()`.  The state
of the loops is the table and the running `index`. -/
def fromvtkm.CopyArrayContents_VecOfVec (T : Shape) (portal : List Value) (array : Ptr)
    (numValues : Nat) (h : Heap) : Heap :=
  ((List.range numValues).foldl
    (fun st i =>
      let v := portalGet portal i
      (List.range (vtkPortalTraits.NUM_COMPONENTS_OUTER T)).foldl
        (fun st _j =>
          let c := v.inner i
          (List.range (vtkPortalTraits.NUM_COMPONENTS_INNER T)).foldl
            (fun st k => (SetValue st.1 array st.2 (c.getD k 0), st.2 + 1))
            st)
        st)
    (h, 0)).1

/-- Embeds `CopyArrayContents<vtkPortalOfVecOfValues>::operator()`. -/
def fromvtkm.CopyArrayContents_Vec (T : Shape) (portal : List Value) (array : Ptr)
    (numValues : Nat) (h : Heap) : Heap :=
  ((List.range numValues).foldl
    (fun st i =>
      let v := portalGet portal i
      (List.range (vtkPortalTraits.NUM_COMPONENTS T)).foldl
        (fun st j => (SetValue st.1 array st.2 (v.component j), st.2 + 1))
        st)
    (h, 0)).1

/-- Embeds `CopyArrayContents<vtkPortalOfScalarValues>::operator()`. -/
def fromvtkm.CopyArrayContents_Scalar (portal : List Value) (array : Ptr)
    (numValues : Nat) (h : Heap) : Heap :=
  (List.range numValues).foldl
    (fun h i => SetValue h array i (portalGet portal i).toScalar)
    h

/-- The compile-time switch `CopyArrayContents<typename Traits::TagType>`. -/
def fromvtkm.CopyArrayContents (T : Shape) (portal : List Value) (array : Ptr)
    (numValues : Nat) (h : Heap) : Heap :=
  match vtkPortalTraits.TagType T with
  | .vtkPortalOfVecOfVecValues => fromvtkm.CopyArrayContents_VecOfVec T portal array numValues h
  | .vtkPortalOfVecOfValues => fromvtkm.CopyArrayContents_Vec T portal array numValues h
  | .vtkPortalOfScalarValues => fromvtkm.CopyArrayContents_Scalar portal array numValues h

/-- What a call of the `ArrayConverter` functor leaves behind: the object table,
the storage of the handle it was given, and its `Data` member. -/
structure fromvtkm.ArrayConverter where
  heap : Heap
  Storage : ConcreteStorage
  Data : Option Ptr
  deriving DecidableEq, Repr

/-- Embeds `ArrayConverter::CopyEachValue`, for a handle of value type `T` whose
storage is read through `portal`. -/
def fromvtkm.ArrayConverter.CopyEachValue (T : ValueT) (portal : List Value) (h : Heap) :
    fromvtkm.ArrayConverter :=
  let numValues := portal.length
  let numComps := vtkPortalTraits.NUM_COMPONENTS T.shape
  let array := h.length
  let h1 := h ++ [vtkAOSDataArrayTemplate.New T.ComponentType]
  let h2 := SetNumberOfComponents h1 array numComps
  let h3 := SetNumberOfTuples h2 array numValues
  let h4 := fromvtkm.CopyArrayContents T.shape portal array numValues h3
  { heap := h4, Storage := ConcreteStorage.Other portal, Data := some array }

/-- Embeds `ArrayConverter::operator()` for `StorageTagBasic`: the buffer is
taken from the storage and installed in a new host array. -/
def fromvtkm.ArrayConverter.call_Basic (T : ValueT) (s : BasicStorage) (h : Heap) :
    fromvtkm.ArrayConverter :=
  let array := h.length
  let h1 := h ++ [vtkAOSDataArrayTemplate.New T.ComponentType]
  let h2 := SetNumberOfComponents h1 array (vtkPortalTraits.NUM_COMPONENTS T.shape)
  let stolen := s.StealArray
  let stolenMemory := stolen.1
  let size := stolen.2.NumberOfValues * vtkPortalTraits.NUM_COMPONENTS T.shape
  let h3 := SetVoidArray h2 array stolenMemory size
  let h4 := SetArrayFreeFunction h3 array stolen.2.DeleteFunction
  { heap := h4, Storage := ConcreteStorage.Basic stolen.2, Data := some array }

/-- Embeds `ArrayConverter::operator()` for `vtkAOSArrayContainerTag`. -/
def fromvtkm.ArrayConverter.call_AOS (VTKArray : Ptr) (NumberOfValues : Nat) (h : Heap) :
    fromvtkm.ArrayConverter :=
  { heap := Register h VTKArray,
    Storage := ConcreteStorage.View ContainerTag.vtkAOSArrayContainerTag VTKArray NumberOfValues,
    Data := some VTKArray }

/-- Embeds `ArrayConverter::operator()` for `vtkSOAArrayContainerTag`. -/
def fromvtkm.ArrayConverter.call_SOA (VTKArray : Ptr) (NumberOfValues : Nat) (h : Heap) :
    fromvtkm.ArrayConverter :=
  { heap := Register h VTKArray,
    Storage := ConcreteStorage.View ContainerTag.vtkSOAArrayContainerTag VTKArray NumberOfValues,
    Data := some VTKArray }

/-- Embeds `ArrayConverter::operator()` for `StorageTagVirtual`: the wrapped
storage is tested as interleaved view, planar view, owned-basic, in that order. -/
def fromvtkm.ArrayConverter.call_Virtual (T : ValueT) (wrapped : ConcreteStorage) (h : Heap) :
    fromvtkm.ArrayConverter :=
  match wrapped with
  | .View .vtkAOSArrayContainerTag p n => fromvtkm.ArrayConverter.call_AOS p n h
  | .View .vtkSOAArrayContainerTag p n => fromvtkm.ArrayConverter.call_SOA p n h
  | .Basic s => fromvtkm.ArrayConverter.call_Basic T s h
  | .Other portal => fromvtkm.ArrayConverter.CopyEachValue T portal h

/-- The overload set of `ArrayConverter::operator()`, resolved on the storage
tag of the handle. -/
def fromvtkm.ArrayConverter.call (handle : ArrayHandle) (h : Heap) : fromvtkm.ArrayConverter :=
  if handle.Virtual then
    fromvtkm.ArrayConverter.call_Virtual handle.T handle.Storage h
  else
    match handle.Storage with
    | .Basic s => fromvtkm.ArrayConverter.call_Basic handle.T s h
    | .View .vtkAOSArrayContainerTag p n => fromvtkm.ArrayConverter.call_AOS p n h
    | .View .vtkSOAArrayContainerTag p n => fromvtkm.ArrayConverter.call_SOA p n h
    | .Other portal => fromvtkm.ArrayConverter.CopyEachValue handle.T portal h

/-- The compute-side error `vtkm::cont::Error`. -/
inductive Error where
  | ErrorBadType
  deriving DecidableEq, Repr

/-- The output policy: the value types the reverse dispatch tries.  The list is
declared in `vtkmFilterPolicy.h`, not part of the excerpt, and is a parameter. -/
structure vtkmOutputFilterPolicy where
  FieldTypeList : List ValueT
  deriving DecidableEq, Repr

/-- Modelled from the spec: `CastAndCall(ApplyPolicy(input, policy), aConverter)`,
the type-erased dispatch of VTK-m (not part of the excerpt): when the
field holds a handle whose value type is in the policy list, the functor is
called with that handle seen through `StorageTagVirtual`; otherwise the dispatch
raises. -/
def fromvtkm.CastAndCall (policy : vtkmOutputFilterPolicy) (input : Field) (h : Heap) :
    Except Error fromvtkm.ArrayConverter :=
  match input.Data with
  | none => Except.error Error.ErrorBadType
  | some handle =>
    if handle.T ∈ policy.FieldTypeList then
      Except.ok (fromvtkm.ArrayConverter.call { handle with Virtual := true } h)
    else
      Except.error Error.ErrorBadType

/-- Outcome of `fromvtkm::Convert(field)`: the object table, the field as the
call leaves it, and the returned pointer. -/
structure fromvtkm.Converted where
  heap : Heap
  input : Field
  data : Option Ptr
  deriving DecidableEq, Repr

/-- Embeds `fromvtkm::Convert(const vtkm::cont::Field&)`. -/
def fromvtkm.Convert (policy : vtkmOutputFilterPolicy) (input : Field) (h : Heap) :
    fromvtkm.Converted :=
  match fromvtkm.CastAndCall policy input h with
  | .ok aConverter =>
    let data := aConverter.Data
    let h1 :=
      match data with
      | some d => SetName aConverter.heap d input.Name
      | none => aConverter.heap
    { heap := h1,
      input := { input with
        Data := input.Data.map (fun handle => { handle with Storage := aConverter.Storage }) },
      data := data }
  | .error _ => { heap := h, input := input, data := none }

/-- The state `ConvertArrays` works on: the object table and the two groups of
the output dataset. -/
structure fromvtkm.Output where
  heap : Heap
  PointData : vtkFieldData
  CellData : vtkFieldData
  deriving DecidableEq, Repr

/-- The body of the loop of `ConvertArrays` for one field `f`; also yields the
field as the conversion leaves it. -/
def fromvtkm.ConvertArrays.body (policy : vtkmOutputFilterPolicy) (st : fromvtkm.Output)
    (f : Field) : fromvtkm.Output × Field :=
  let r := fromvtkm.Convert policy f st.heap
  match r.data with
  | some vfield =>
    if f.FieldAssociation = Association.POINTS then
      let added := vtkFieldData.AddArray r.heap st.PointData vfield
      ({ heap := UnRegister added.1 vfield, PointData := added.2, CellData := st.CellData },
       r.input)
    else if f.FieldAssociation = Association.CELL_SET then
      let added := vtkFieldData.AddArray r.heap st.CellData vfield
      ({ heap := UnRegister added.1 vfield, PointData := st.PointData, CellData := added.2 },
       r.input)
    else
      ({ heap := UnRegister r.heap vfield, PointData := st.PointData, CellData := st.CellData },
       r.input)
  | none => ({ heap := r.heap, PointData := st.PointData, CellData := st.CellData }, r.input)

/-- The loop of `ConvertArrays` over the fields, in index order. -/
def fromvtkm.ConvertArrays.loop (policy : vtkmOutputFilterPolicy) :
    List Field → fromvtkm.Output → fromvtkm.Output × List Field
  | [], st => (st, [])
  | f :: rest, st =>
    let step := fromvtkm.ConvertArrays.body policy st f
    let tail := fromvtkm.ConvertArrays.loop policy rest step.1
    (tail.1, step.2 :: tail.2)

/-- What `ConvertArrays` leaves behind: the object table, the input dataset, the
groups of the output dataset, and the returned flag. -/
structure fromvtkm.ConvertArraysResult where
  heap : Heap
  input : DataSet
  output : vtkDataSet
  ret : Bool
  deriving DecidableEq, Repr

/-- Embeds `fromvtkm::ConvertArrays(input, output)`. -/
def fromvtkm.ConvertArrays (policy : vtkmOutputFilterPolicy) (input : DataSet)
    (output : vtkDataSet) (h : Heap) : fromvtkm.ConvertArraysResult :=
  let pd := output.PointData
  let cd := output.CellData
  let r := fromvtkm.ConvertArrays.loop policy input.Fields
    { heap := h, PointData := pd, CellData := cd }
  { heap := r.1.heap, input := { Fields := r.2 },
    output := { PointData := r.1.PointData, CellData := r.1.CellData }, ret := true }

/-! ## Geometry: `fromvtkm::Convert(const vtkm::cont::CoordinateSystem&)` -/

/-- A compute coordinate system: the handle of its coordinate array, `none`
when it holds no array for the dispatch to resolve. -/
structure CoordinateSystem where
  Data : Option ArrayHandle
  deriving DecidableEq, Repr

/-- Modelled from the spec: `CastAndCall(input, aConverter)` on a coordinate
system (VTK-m, not part of the excerpt).  The coordinate array goes through the
same array machinery as a field: the functor is called with its handle, and the
dispatch raises when there is no array to resolve. -/
def fromvtkm.CastAndCallCoordinates (input : CoordinateSystem) (h : Heap) :
    Except Error fromvtkm.ArrayConverter :=
  match input.Data with
  | none => Except.error Error.ErrorBadType
  | some handle => Except.ok (fromvtkm.ArrayConverter.call handle h)

/-- State of a host point-set object (`vtkPoints`): its data array. -/
structure vtkPoints where
  Data : Option Ptr
  deriving DecidableEq, Repr

/-- Modelled from the spec: `vtkPoints::New()` (not part of the excerpt), a new
point-set object, before the coordinate array is wrapped into it. -/
def vtkPoints.New : vtkPoints :=
  { Data := none }

/-- Modelled from the spec: `SetData` of `vtkPoints` (not part of the excerpt):
the point set wraps the array and holds a reference to it. -/
def vtkPoints.SetData (h : Heap) (_points : vtkPoints) (pdata : Ptr) : Heap × vtkPoints :=
  (Register h pdata, { Data := some pdata })

/-- Outcome of the geometry conversion: the object table, the coordinate system
as the call leaves it, and the returned point set (`none` is the null pointer). -/
structure fromvtkm.ConvertedPoints where
  heap : Heap
  input : CoordinateSystem
  points : Option vtkPoints
  deriving DecidableEq, Repr

/-- Embeds `fromvtkm::Convert(const vtkm::cont::CoordinateSystem&)`.  The result
is `none` where the C++ behaviour is undefined: `pdata->FastDelete()` through a
null `pdata`. -/
def fromvtkm.ConvertCoordinateSystem (input : CoordinateSystem) (h : Heap) :
    Option fromvtkm.ConvertedPoints :=
  match fromvtkm.CastAndCallCoordinates input h with
  | .ok aConverter =>
    match aConverter.Data with
    | some pdata =>
      let points := vtkPoints.New
      let installed := vtkPoints.SetData aConverter.heap points pdata
      let after : CoordinateSystem :=
        { Data := input.Data.map (fun handle => { handle with Storage := aConverter.Storage }) }
      some { heap := UnRegister installed.1 pdata, input := after, points := some installed.2 }
    | none => none
  | .error _ => some { heap := h, input := input, points := none }

/-! ## The vector exporter's file format: `vtkGL2PSExporter` -/

/-- The enumerator `vtkGL2PSExporter::PS_FILE`. -/
def vtkGL2PSExporter.PS_FILE : Int := 0

/-- The enumerator `vtkGL2PSExporter::EPS_FILE`. -/
def vtkGL2PSExporter.EPS_FILE : Int := 1

/-- The enumerator `vtkGL2PSExporter::PDF_FILE`. -/
def vtkGL2PSExporter.PDF_FILE : Int := 2

/-- The enumerator `vtkGL2PSExporter::TEX_FILE`. -/
def vtkGL2PSExporter.TEX_FILE : Int := 3

/-- The enumerator `vtkGL2PSExporter::SVG_FILE`. -/
def vtkGL2PSExporter.SVG_FILE : Int := 4

/-- The part of the exporter's state the file-format routines read and write. -/
structure vtkGL2PSExporter where
  FileFormat : Int
  deriving DecidableEq, Repr

/-- Modelled from the spec: the setter generated by
`vtkSetClampMacro(FileFormat, int, PS_FILE, SVG_FILE)` (the macro is declared in
`vtkSetGet.h`, not part of the excerpt): it stores its argument clamped to the
range from `PS_FILE` to `SVG_FILE`. -/
def vtkGL2PSExporter.SetFileFormat (self : vtkGL2PSExporter) (arg : Int) : vtkGL2PSExporter :=
  { self with FileFormat :=
      if arg < vtkGL2PSExporter.PS_FILE then vtkGL2PSExporter.PS_FILE
      else if arg > vtkGL2PSExporter.SVG_FILE then vtkGL2PSExporter.SVG_FILE
      else arg }

/-- Modelled from the spec: the getter generated by `vtkGetMacro(FileFormat, int)`
(the macro is declared in `vtkSetGet.h`, not part of the excerpt). -/
def vtkGL2PSExporter.GetFileFormat (self : vtkGL2PSExporter) : Int :=
  self.FileFormat

/-- Embeds `SetFileFormatToPS`. -/
def vtkGL2PSExporter.SetFileFormatToPS (self : vtkGL2PSExporter) : vtkGL2PSExporter :=
  self.SetFileFormat vtkGL2PSExporter.PS_FILE

/-- Embeds `SetFileFormatToEPS`. -/
def vtkGL2PSExporter.SetFileFormatToEPS (self : vtkGL2PSExporter) : vtkGL2PSExporter :=
  self.SetFileFormat vtkGL2PSExporter.EPS_FILE

/-- Embeds `SetFileFormatToPDF`. -/
def vtkGL2PSExporter.SetFileFormatToPDF (self : vtkGL2PSExporter) : vtkGL2PSExporter :=
  self.SetFileFormat vtkGL2PSExporter.PDF_FILE

/-- Embeds `SetFileFormatToTeX`. -/
def vtkGL2PSExporter.SetFileFormatToTeX (self : vtkGL2PSExporter) : vtkGL2PSExporter :=
  self.SetFileFormat vtkGL2PSExporter.TEX_FILE

/-- Embeds `SetFileFormatToSVG`. -/
def vtkGL2PSExporter.SetFileFormatToSVG (self : vtkGL2PSExporter) : vtkGL2PSExporter :=
  self.SetFileFormat vtkGL2PSExporter.SVG_FILE

/-- Embeds `vtkGL2PSExporter::GetFileFormatAsString`. -/
def vtkGL2PSExporter.GetFileFormatAsString (self : vtkGL2PSExporter) : String :=
  if self.FileFormat = vtkGL2PSExporter.PS_FILE then "PS"
  else if self.FileFormat = vtkGL2PSExporter.EPS_FILE then "EPS"
  else if self.FileFormat = vtkGL2PSExporter.PDF_FILE then "PDF"
  else if self.FileFormat = vtkGL2PSExporter.TEX_FILE then "TeX"
  else "SVG"

/-! ## Vocabulary of the proofs and sample inputs -/

/-- Away from the object written to, the table is as before. -/
def Heap.sameOff (w : Ptr) (h h1 : Heap) : Prop :=
  h1.length = h.length ∧ ∀ q, q ≠ w → h1[q]? = h[q]?

/-- A sample host array: planar, double, three components, two tuples. -/
def sample.velocity : vtkDataArray :=
  { DataType := ScalarType.VTK_DOUBLE, Class := ArrayClass.SOA, Name := some "velocity",
    NumberOfComponents := 3, Size := 6,
    Array := some { address := Address.external 7, contents := [1, 2, 3, 4, 5, 6] },
    FreeFunction := none, ReferenceCount := 1 }

/-- A sample host array: interleaved, float, one component, three tuples. -/
def sample.pressure : vtkDataArray :=
  { DataType := ScalarType.VTK_FLOAT, Class := ArrayClass.AOS, Name := some "pressure",
    NumberOfComponents := 1, Size := 3,
    Array := some { address := Address.external 8, contents := [10, 20, 30] },
    FreeFunction := none, ReferenceCount := 1 }

/-- A sample object table: `sample.velocity` at address 0, `sample.pressure` at 1. -/
def sample.heap : Heap := [sample.velocity, sample.pressure]

/-- A sample output policy. -/
def sample.policy : vtkmOutputFilterPolicy :=
  { FieldTypeList :=
      [{ ComponentType := ScalarType.VTK_DOUBLE, shape := Shape.Vec 3 },
       { ComponentType := ScalarType.VTK_DOUBLE, shape := Shape.Scalar },
       { ComponentType := ScalarType.VTK_FLOAT, shape := Shape.Scalar }] }

/-- A sample owned-basic storage: two values of width three in block 3. -/
def sample.basic : BasicStorage :=
  { Array := some { address := Address.external 3, contents := [1, 2, 3, 4, 5, 6] },
    NumberOfValues := 2, DeleteFunction := 99 }

/-- A sample field over owned-basic storage. -/
def sample.temperature : Field :=
  { Name := "temperature", FieldAssociation := Association.POINTS, AssocCellSetName := "",
    Data := some { T := { ComponentType := ScalarType.VTK_DOUBLE, shape := Shape.Vec 3 },
                   Virtual := false, Storage := ConcreteStorage.Basic sample.basic } }

/-- Sample field: point field "a" over a computed storage holding one scalar. -/
def sample.first : Field :=
  { Name := "a", FieldAssociation := Association.POINTS, AssocCellSetName := "",
    Data := some { T := { ComponentType := ScalarType.VTK_DOUBLE, shape := Shape.Scalar },
                   Virtual := false,
                   Storage := ConcreteStorage.Other [Value.scalar 1] } }

/-- Sample field: a second point field "a", holding another scalar. -/
def sample.second : Field :=
  { Name := "a", FieldAssociation := Association.POINTS, AssocCellSetName := "",
    Data := some { T := { ComponentType := ScalarType.VTK_DOUBLE, shape := Shape.Scalar },
                   Virtual := false,
                   Storage := ConcreteStorage.Other [Value.scalar 2] } }

/-- A sample host array with five components, one more than the forward
conversion supports. -/
def sample.wide : vtkDataArray :=
  { DataType := ScalarType.VTK_INT, Class := ArrayClass.AOS, Name := some "wide",
    NumberOfComponents := 5, Size := 5,
    Array := some { address := Address.external 9, contents := [1, 2, 3, 4, 5] },
    FreeFunction := none, ReferenceCount := 1 }

/-- The cell field the forward conversion builds from `sample.velocity` at
address 0. -/
def sample.velocityField : Field :=
  { Name := "velocity", FieldAssociation := Association.CELL_SET, AssocCellSetName := "cells",
    Data := some { T := { ComponentType := ScalarType.VTK_DOUBLE, shape := Shape.Vec 3 },
                   Virtual := false,
                   Storage := ConcreteStorage.View ContainerTag.vtkSOAArrayContainerTag 0 2 } }


/-- A sample field whose value type the sample policy does not list. -/
def sample.unlisted : Field :=
  { Name := "ids", FieldAssociation := Association.POINTS, AssocCellSetName := "",
    Data := some { T := { ComponentType := ScalarType.VTK_INT, shape := Shape.Vec 2 },
                   Virtual := false,
                   Storage := ConcreteStorage.Other [Value.vec [1, 2]] } }

/-- A sample object table: `sample.pressure` at address 0, the five-component
`sample.wide` at address 1. -/
def sample.mixed : Heap := [sample.pressure, sample.wide]

/-- A sample portal of two nested vectors, outer width 2 and inner width 1:
`((1), (2))` and `((3), (4))`. -/
def sample.nested : List Value :=
  [Value.vecOfVec [[1], [2]], Value.vecOfVec [[3], [4]]]

/-- A sample host array of the bit-packed type, which the forward dispatch does
not enumerate. -/
def sample.bits : vtkDataArray :=
  { DataType := ScalarType.VTK_BIT, Class := ArrayClass.Other, Name := some "mask",
    NumberOfComponents := 1, Size := 4,
    Array := some { address := Address.external 11, contents := [1, 0, 0, 1] },
    FreeFunction := none, ReferenceCount := 1 }

/-! # Theorems -/

/-! ## The object table -/

theorem Heap.getElem?_update (h : Heap) (p q : Ptr) (f : vtkDataArray → vtkDataArray) :
    (Heap.update h p f)[q]? = if p = q then (h[q]?).map f else h[q]? := by
  unfold Heap.update
  by_cases hpq : p = q
  · subst hpq
    cases hp : h[p]? with
    | none => simp [hp]
    | some a =>
      have hlt : p < h.length := by
        by_contra hge
        have hnone : h[p]? = none := List.getElem?_eq_none (Nat.le_of_not_lt hge)
        simp [hnone] at hp
      simp [List.getElem?_set, hlt]
  · cases hp : h[p]? with
    | none => simp [hpq]
    | some a => simp [hpq]

theorem Heap.length_update (h : Heap) (p : Ptr) (f : vtkDataArray → vtkDataArray) :
    (Heap.update h p f).length = h.length := by
  unfold Heap.update
  cases h[p]? <;> simp

theorem Heap.update_append_new (h : Heap) (x : vtkDataArray) (f : vtkDataArray → vtkDataArray) :
    Heap.update (h ++ [x]) h.length f = h ++ [f x] := by
  unfold Heap.update
  simp

theorem call_Basic_heap (T : ValueT) (s : BasicStorage) (h : Heap) :
    (fromvtkm.ArrayConverter.call_Basic T s h).heap =
      h ++ [{ DataType := T.ComponentType, Class := ArrayClass.AOS, Name := none,
              NumberOfComponents := max 1 (vtkPortalTraits.NUM_COMPONENTS T.shape),
              Size := s.NumberOfValues * vtkPortalTraits.NUM_COMPONENTS T.shape,
              Array := s.Array, FreeFunction := some s.DeleteFunction,
              ReferenceCount := 1 }] := by
  simp only [fromvtkm.ArrayConverter.call_Basic, SetNumberOfComponents, SetVoidArray,
    SetArrayFreeFunction, Heap.update_append_new, BasicStorage.StealArray,
    vtkAOSDataArrayTemplate.New]

theorem call_of_Basic (handle : ArrayHandle) (s : BasicStorage) (h : Heap)
    (hs : handle.Storage = ConcreteStorage.Basic s) :
    fromvtkm.ArrayConverter.call handle h = fromvtkm.ArrayConverter.call_Basic handle.T s h := by
  unfold fromvtkm.ArrayConverter.call fromvtkm.ArrayConverter.call_Virtual
  rw [hs]
  cases handle.Virtual <;> simp

/-- C3. Materializing an owned-basic handle (seen directly or through the
virtual wrapper) that holds `n` values of total scalar width `w ≥ 1` and whose
take-buffer operation yields the block `b`: the result is a new host object, the
table grows by exactly that object, an interleaved array of the handle's
component type with `w` components, `n * w` flat values, `n` tuples, whose block
is `b` itself and whose free function is the storage's delete function; its flat
values are those of `b`; afterwards the handle's storage owns no block. -/
theorem C3_owned_basic_hand_off (h : Heap) (handle : ArrayHandle) (s : BasicStorage)
    (b : Buffer) (n w : Nat)
    (hs : handle.Storage = ConcreteStorage.Basic s)
    (htake : s.StealArray.1 = some b)
    (hn : handle.GetNumberOfValues = n)
    (hw : vtkPortalTraits.NUM_COMPONENTS handle.T.shape = w) (hpos : 1 ≤ w) :
    ∃ array : vtkDataArray,
      (fromvtkm.ArrayConverter.call handle h).Data = some h.length ∧
      (fromvtkm.ArrayConverter.call handle h).heap = h ++ [array] ∧
      array.DataType = handle.T.ComponentType ∧ array.Class = ArrayClass.AOS ∧
      array.NumberOfComponents = w ∧ array.Size = n * w ∧ array.GetNumberOfTuples = n ∧
      array.Array = some b ∧ array.FreeFunction = some s.DeleteFunction ∧
      array.Values = b.contents.take (n * w) ∧ array.ReferenceCount = 1 ∧
      (fromvtkm.ArrayConverter.call handle h).Storage = ConcreteStorage.Basic s.StealArray.2 ∧
      s.StealArray.2.Array = none := by
  have hn2 : s.NumberOfValues = n := by
    simpa [ArrayHandle.GetNumberOfValues, hs] using hn
  have hb : s.Array = some b := by simpa [BasicStorage.StealArray] using htake
  refine ⟨{ DataType := handle.T.ComponentType, Class := ArrayClass.AOS, Name := none,
            NumberOfComponents := w, Size := n * w, Array := some b,
            FreeFunction := some s.DeleteFunction, ReferenceCount := 1 },
    ?_, ?_, rfl, rfl, rfl, rfl, ?_, rfl, rfl, ?_, rfl, ?_, rfl⟩
  · rw [call_of_Basic handle s h hs]; rfl
  · rw [call_of_Basic handle s h hs, call_Basic_heap, hw, hn2, hb, Nat.max_eq_right hpos]
  · exact Nat.mul_div_cancel n hpos
  · rfl
  · rw [call_of_Basic handle s h hs]; rfl

/-! ## The materializer -/

theorem foldl_invariant {σ α : Type} (P : σ → Prop) (f : σ → α → σ)
    (hf : ∀ s a, P s → P (f s a)) (l : List α) (s : σ) (hs : P s) : P (l.foldl f s) := by
  induction l generalizing s with
  | nil => exact hs
  | cons a l ih => exact ih (f s a) (hf s a hs)

theorem Heap.sameOff_refl (w : Ptr) (h : Heap) : Heap.sameOff w h h :=
  ⟨rfl, fun _ _ => rfl⟩

theorem Heap.sameOff_update (w : Ptr) (h h1 : Heap) (f : vtkDataArray → vtkDataArray)
    (hs : Heap.sameOff w h h1) : Heap.sameOff w h (Heap.update h1 w f) := by
  refine ⟨by rw [Heap.length_update]; exact hs.1, ?_⟩
  intro q hq
  rw [Heap.getElem?_update, if_neg (Ne.symm hq)]
  exact hs.2 q hq

theorem CopyArrayContents_sameOff (T : Shape) (portal : List Value) (array : Ptr)
    (numValues : Nat) (h : Heap) :
    Heap.sameOff array h (fromvtkm.CopyArrayContents T portal array numValues h) := by
  unfold fromvtkm.CopyArrayContents
  split
  · unfold fromvtkm.CopyArrayContents_VecOfVec
    apply foldl_invariant (fun st : Heap × Nat => Heap.sameOff array h st.1)
    · intro st i hst
      apply foldl_invariant (fun st : Heap × Nat => Heap.sameOff array h st.1)
      · intro st j hst
        apply foldl_invariant (fun st : Heap × Nat => Heap.sameOff array h st.1)
        · intro st k hst
          exact Heap.sameOff_update array h st.1 _ hst
        · exact hst
      · exact hst
    · exact Heap.sameOff_refl array h
  · unfold fromvtkm.CopyArrayContents_Vec
    apply foldl_invariant (fun st : Heap × Nat => Heap.sameOff array h st.1)
    · intro st i hst
      apply foldl_invariant (fun st : Heap × Nat => Heap.sameOff array h st.1)
      · intro st j hst
        exact Heap.sameOff_update array h st.1 _ hst
      · exact hst
    · exact Heap.sameOff_refl array h
  · unfold fromvtkm.CopyArrayContents_Scalar
    apply foldl_invariant (fun h1 : Heap => Heap.sameOff array h h1)
    · intro h1 i hst
      exact Heap.sameOff_update array h h1 _ hst
    · exact Heap.sameOff_refl array h

theorem Heap.sameOff_append (h : Heap) (x : vtkDataArray) (q : Ptr) (hq : q ≠ h.length) :
    (h ++ [x])[q]? = h[q]? := by
  rcases Nat.lt_or_gt_of_ne hq with hlt | hgt
  · exact List.getElem?_append_left hlt
  · rw [List.getElem?_eq_none (by simp; omega), List.getElem?_eq_none (by omega)]

/-- The new object a copy creates is the only thing it adds to the table. -/
theorem CopyEachValue_heap (T : ValueT) (portal : List Value) (h : Heap) :
    (fromvtkm.ArrayConverter.CopyEachValue T portal h).heap.length = h.length + 1 ∧
    ∀ q, q ≠ h.length → (fromvtkm.ArrayConverter.CopyEachValue T portal h).heap[q]? = h[q]? := by
  have hcopy := CopyArrayContents_sameOff T.shape portal h.length portal.length
    (SetNumberOfTuples (SetNumberOfComponents (h ++ [vtkAOSDataArrayTemplate.New T.ComponentType])
      h.length (vtkPortalTraits.NUM_COMPONENTS T.shape)) h.length portal.length)
  have hlen : (SetNumberOfTuples (SetNumberOfComponents
      (h ++ [vtkAOSDataArrayTemplate.New T.ComponentType])
      h.length (vtkPortalTraits.NUM_COMPONENTS T.shape)) h.length portal.length).length
      = h.length + 1 := by
    simp [SetNumberOfTuples, SetNumberOfComponents, Heap.length_update]
  constructor
  · show (fromvtkm.CopyArrayContents T.shape portal h.length portal.length _).length = _
    rw [hcopy.1, hlen]
  · intro q hq
    show (fromvtkm.CopyArrayContents T.shape portal h.length portal.length _)[q]? = _
    rw [hcopy.2 q hq]
    simp only [SetNumberOfTuples, SetNumberOfComponents, Heap.getElem?_update, if_neg (Ne.symm hq)]
    exact Heap.sameOff_append h _ q hq

/-- The converter always sets `Data`: to the viewed array for a view, to the
newly created array otherwise. -/
theorem call_Data (handle : ArrayHandle) (h : Heap) :
    (fromvtkm.ArrayConverter.call handle h).Data =
      some (match handle.Storage with
            | ConcreteStorage.View _ p _ => p
            | _ => h.length) := by
  unfold fromvtkm.ArrayConverter.call fromvtkm.ArrayConverter.call_Virtual
  cases handle.Virtual <;> cases hS : handle.Storage with
  | Basic s => simp [fromvtkm.ArrayConverter.call_Basic]
  | View tag p n =>
    cases tag <;> simp [fromvtkm.ArrayConverter.call_AOS, fromvtkm.ArrayConverter.call_SOA]
  | Other portal => simp [fromvtkm.ArrayConverter.CopyEachValue]

/-- The virtual wrapper resolves to the overload of the wrapped storage. -/
theorem call_eq (handle : ArrayHandle) (h : Heap) :
    fromvtkm.ArrayConverter.call handle h =
      match handle.Storage with
      | ConcreteStorage.Basic s => fromvtkm.ArrayConverter.call_Basic handle.T s h
      | ConcreteStorage.View ContainerTag.vtkAOSArrayContainerTag p n =>
        fromvtkm.ArrayConverter.call_AOS p n h
      | ConcreteStorage.View ContainerTag.vtkSOAArrayContainerTag p n =>
        fromvtkm.ArrayConverter.call_SOA p n h
      | ConcreteStorage.Other portal => fromvtkm.ArrayConverter.CopyEachValue handle.T portal h := by
  unfold fromvtkm.ArrayConverter.call fromvtkm.ArrayConverter.call_Virtual
  cases handle.Virtual <;> cases hS : handle.Storage with
  | Basic s => simp
  | View tag p n => cases tag <;> simp
  | Other portal => simp

/-- Away from the array it returns, the converter leaves every object as it
was; the table never shrinks. -/
theorem call_heap (handle : ArrayHandle) (h : Heap) (w : Ptr)
    (hw : (fromvtkm.ArrayConverter.call handle h).Data = some w) :
    h.length ≤ (fromvtkm.ArrayConverter.call handle h).heap.length ∧
    ∀ q, q ≠ w → (fromvtkm.ArrayConverter.call handle h).heap[q]? = h[q]? := by
  rw [call_Data] at hw
  rw [call_eq]
  cases hS : handle.Storage with
  | Basic s =>
    rw [hS] at hw
    simp only [Option.some.injEq] at hw
    subst hw
    simp only [call_Basic_heap]
    refine ⟨by simp, fun q hq => Heap.sameOff_append h _ q hq⟩
  | View tag p n =>
    rw [hS] at hw
    simp only [Option.some.injEq] at hw
    subst hw
    have hreg : (Register h p).length = h.length ∧ ∀ q, q ≠ p → (Register h p)[q]? = h[q]? :=
      Heap.sameOff_update p h h _ (Heap.sameOff_refl p h)
    cases tag <;>
      simp only [fromvtkm.ArrayConverter.call_AOS, fromvtkm.ArrayConverter.call_SOA] <;>
      exact ⟨Nat.le_of_eq hreg.1.symm, hreg.2⟩
  | Other portal =>
    rw [hS] at hw
    simp only [Option.some.injEq] at hw
    subst hw
    have hc := CopyEachValue_heap handle.T portal h
    exact ⟨by dsimp only; omega, hc.2⟩

/-- The array the converter returns is a live object, provided a viewed array
is one. -/
theorem call_Data_live (handle : ArrayHandle) (h : Heap) (w : Ptr)
    (hlive : ∀ tag p n, handle.Storage = ConcreteStorage.View tag p n → p < h.length)
    (hw : (fromvtkm.ArrayConverter.call handle h).Data = some w) :
    w < (fromvtkm.ArrayConverter.call handle h).heap.length := by
  rw [call_Data] at hw
  rw [call_eq]
  cases hS : handle.Storage with
  | Basic s =>
    rw [hS] at hw
    simp only [Option.some.injEq] at hw
    subst hw
    simp [call_Basic_heap]
  | View tag p n =>
    rw [hS] at hw
    simp only [Option.some.injEq] at hw
    subst hw
    have hp := hlive tag p n hS
    have hreg : (Register h p).length = h.length := Heap.length_update h p _
    cases tag <;>
      dsimp only [fromvtkm.ArrayConverter.call_AOS, fromvtkm.ArrayConverter.call_SOA] <;>
      (rw [hreg]; exact hp)
  | Other portal =>
    rw [hS] at hw
    simp only [Option.some.injEq] at hw
    subst hw
    have hc := (CopyEachValue_heap handle.T portal h).1
    show h.length < (fromvtkm.ArrayConverter.CopyEachValue handle.T portal h).heap.length
    rw [hc]
    exact Nat.lt_succ_self _

/-- The value shape the forward switch picks for a component count in 1..4. -/
theorem ConvertPointField_eq (ValueType : ScalarType) (TagType : ContainerTag) (h : Heap)
    (input : Ptr) (A : vtkDataArray) (name : String)
    (hA : h[input]? = some A) (hname : A.Name = some name) :
    tovtkm.ConvertPointField ValueType TagType h input =
      if 1 ≤ A.NumberOfComponents ∧ A.NumberOfComponents ≤ 4 then
        some { Name := name, FieldAssociation := Association.POINTS, AssocCellSetName := "",
               Data := some { T := { ComponentType := ValueType,
                                     shape := if A.NumberOfComponents = 1 then Shape.Scalar
                                              else Shape.Vec A.NumberOfComponents },
                              Virtual := false,
                              Storage := ConcreteStorage.View TagType input A.GetNumberOfTuples } }
      else some Field.empty := by
  unfold tovtkm.ConvertPointField
  rw [hA]
  simp only [hname, tovtkm.vhandle, tovtkm.Storage]
  rcases hc : A.NumberOfComponents with _ | _ | _ | _ | _ | c <;> simp

theorem ConvertCellField_eq (ValueType : ScalarType) (TagType : ContainerTag) (h : Heap)
    (input : Ptr) (A : vtkDataArray) (name : String)
    (hA : h[input]? = some A) (hname : A.Name = some name) :
    tovtkm.ConvertCellField ValueType TagType h input =
      if 1 ≤ A.NumberOfComponents ∧ A.NumberOfComponents ≤ 4 then
        some { Name := name, FieldAssociation := Association.CELL_SET,
               AssocCellSetName := "cells",
               Data := some { T := { ComponentType := ValueType,
                                     shape := if A.NumberOfComponents = 1 then Shape.Scalar
                                              else Shape.Vec A.NumberOfComponents },
                              Virtual := false,
                              Storage := ConcreteStorage.View TagType input A.GetNumberOfTuples } }
      else some Field.empty := by
  unfold tovtkm.ConvertCellField
  rw [hA]
  simp only [hname, tovtkm.vhandle, tovtkm.Storage]
  rcases hc : A.NumberOfComponents with _ | _ | _ | _ | _ | c <;> simp

/-- The layout tag the downcasts of `tovtkm::Convert` select for a class. -/
theorem Convert_eq_typed (h : Heap) (input : Ptr) (A : vtkDataArray) (association : Int)
    (hA : h[input]? = some A) (htype : vtkTemplateMacro A.DataType = true)
    (hclass : A.Class = ArrayClass.AOS ∨ A.Class = ArrayClass.SOA) :
    tovtkm.Convert h input association =
      tovtkm.ConvertTyped A.DataType
        (if A.Class = ArrayClass.AOS then ContainerTag.vtkAOSArrayContainerTag
         else ContainerTag.vtkSOAArrayContainerTag) h input association := by
  unfold tovtkm.Convert
  rw [hA]
  rcases hclass with hc | hc <;> simp [htype, hc]

/-- The field `tovtkm::Convert` builds from a named interleaved or planar array
of a dispatched type with 1 to 4 components, for the point or cell association. -/
theorem Convert_supported (h : Heap) (input : Ptr) (A : vtkDataArray) (name : String)
    (association : Int)
    (hA : h[input]? = some A) (hname : A.Name = some name)
    (htype : vtkTemplateMacro A.DataType = true)
    (hclass : A.Class = ArrayClass.AOS ∨ A.Class = ArrayClass.SOA)
    (hassoc : association = FIELD_ASSOCIATION_POINTS ∨ association = FIELD_ASSOCIATION_CELLS)
    (hc : 1 ≤ A.NumberOfComponents ∧ A.NumberOfComponents ≤ 4) :
    tovtkm.Convert h input association =
      some { Name := name,
             FieldAssociation :=
               if association = FIELD_ASSOCIATION_POINTS then Association.POINTS
               else Association.CELL_SET,
             AssocCellSetName :=
               if association = FIELD_ASSOCIATION_POINTS then "" else "cells",
             Data := some { T := { ComponentType := A.DataType,
                                   shape := if A.NumberOfComponents = 1 then Shape.Scalar
                                            else Shape.Vec A.NumberOfComponents },
                            Virtual := false,
                            Storage := ConcreteStorage.View
                              (if A.Class = ArrayClass.AOS then ContainerTag.vtkAOSArrayContainerTag
                               else ContainerTag.vtkSOAArrayContainerTag)
                              input A.GetNumberOfTuples } } := by
  rw [Convert_eq_typed h input A association hA htype hclass]
  unfold tovtkm.ConvertTyped
  rcases hassoc with ha | ha
  · rw [if_pos ha, ConvertPointField_eq _ _ h input A name hA hname, if_pos hc, if_pos ha,
      if_pos ha]
  · have hne : ¬ association = FIELD_ASSOCIATION_POINTS := by
      rw [ha]; decide
    rw [if_neg hne, if_pos ha, ConvertCellField_eq _ _ h input A name hA hname, if_pos hc,
      if_neg hne, if_neg hne]

theorem Convert_unsupported_count (h : Heap) (input : Ptr) (A : vtkDataArray) (name : String)
    (association : Int)
    (hA : h[input]? = some A) (hname : A.Name = some name)
    (htype : vtkTemplateMacro A.DataType = true)
    (hclass : A.Class = ArrayClass.AOS ∨ A.Class = ArrayClass.SOA)
    (hc : ¬ (1 ≤ A.NumberOfComponents ∧ A.NumberOfComponents ≤ 4)) :
    tovtkm.Convert h input association = some Field.empty := by
  rw [Convert_eq_typed h input A association hA htype hclass]
  unfold tovtkm.ConvertTyped
  split
  · rw [ConvertPointField_eq _ _ h input A name hA hname, if_neg hc]
  · split
    · rw [ConvertCellField_eq _ _ h input A name hA hname, if_neg hc]
    · rfl

/-- C4. For a live, named host array of a dispatched element type, interleaved
or planar, and the point or cell association: with 1, 2, 3 or 4 components
`tovtkm::Convert` returns a field that holds a handle (it is not the
default-constructed field); with any other component count it returns exactly
the default-constructed field, a defined result with no handle over a shortened
array. -/
theorem C4_component_count_boundary (h : Heap) (input : Ptr) (A : vtkDataArray) (name : String)
    (association : Int)
    (hA : h[input]? = some A) (hname : A.Name = some name)
    (htype : vtkTemplateMacro A.DataType = true)
    (hclass : A.Class = ArrayClass.AOS ∨ A.Class = ArrayClass.SOA)
    (hassoc : association = FIELD_ASSOCIATION_POINTS ∨ association = FIELD_ASSOCIATION_CELLS) :
    ((1 ≤ A.NumberOfComponents ∧ A.NumberOfComponents ≤ 4) →
      ∃ f handle, tovtkm.Convert h input association = some f ∧ f.Data = some handle ∧
        f ≠ Field.empty) ∧
    (¬ (1 ≤ A.NumberOfComponents ∧ A.NumberOfComponents ≤ 4) →
      tovtkm.Convert h input association = some Field.empty ∧ Field.empty.Data = none) := by
  constructor
  · intro hc
    refine ⟨_, _, Convert_supported h input A name association hA hname htype hclass hassoc hc,
      rfl, ?_⟩
    intro hempty
    have hdata := congrArg Field.Data hempty
    simp [Field.empty] at hdata
  · intro hc
    exact ⟨Convert_unsupported_count h input A name association hA hname htype hclass hc, rfl⟩

/-- C5. For a live host array named `name` of a dispatched element type,
interleaved or planar, with `c` components (1 ≤ c ≤ 4) and `t` tuples, and the
point or cell association, `tovtkm::Convert` yields the field named `name`, with
association Points (resp. Cells), whose handle has the array's element type as
component type, shape scalar when `c = 1` and vector of width `c` otherwise, and
is a view with the array's layout tag over that same array exposing `t` values;
a cell field carries the cell-set name "cells" and a point field none. -/
theorem C5_field_semantics_preserved (h : Heap) (input : Ptr) (A : vtkDataArray) (name : String)
    (association : Int) (c t : Nat)
    (hA : h[input]? = some A) (hname : A.Name = some name)
    (htype : vtkTemplateMacro A.DataType = true)
    (hclass : A.Class = ArrayClass.AOS ∨ A.Class = ArrayClass.SOA)
    (hassoc : association = FIELD_ASSOCIATION_POINTS ∨ association = FIELD_ASSOCIATION_CELLS)
    (hcomp : A.NumberOfComponents = c) (hc : 1 ≤ c ∧ c ≤ 4)
    (ht : A.GetNumberOfTuples = t) :
    tovtkm.Convert h input association =
      some { Name := name,
             FieldAssociation :=
               if association = FIELD_ASSOCIATION_POINTS then Association.POINTS
               else Association.CELL_SET,
             AssocCellSetName :=
               if association = FIELD_ASSOCIATION_POINTS then "" else "cells",
             Data := some { T := { ComponentType := A.DataType,
                                   shape := if c = 1 then Shape.Scalar else Shape.Vec c },
                            Virtual := false,
                            Storage := ConcreteStorage.View
                              (if A.Class = ArrayClass.AOS then ContainerTag.vtkAOSArrayContainerTag
                               else ContainerTag.vtkSOAArrayContainerTag)
                              input t } } := by
  subst hcomp ht
  exact Convert_supported h input A name association hA hname htype hclass hassoc hc

/-! ## `fromvtkm::Convert` on a field -/

theorem CastAndCall_ok (policy : vtkmOutputFilterPolicy) (input : Field) (h : Heap)
    (handle : ArrayHandle) (hd : input.Data = some handle)
    (hT : handle.T ∈ policy.FieldTypeList) :
    fromvtkm.CastAndCall policy input h =
      Except.ok (fromvtkm.ArrayConverter.call { handle with Virtual := true } h) := by
  unfold fromvtkm.CastAndCall
  rw [hd]
  simp [hT]

theorem CastAndCall_error (policy : vtkmOutputFilterPolicy) (input : Field) (h : Heap)
    (hno : ∀ handle, input.Data = some handle → handle.T ∉ policy.FieldTypeList) :
    fromvtkm.CastAndCall policy input h = Except.error Error.ErrorBadType := by
  unfold fromvtkm.CastAndCall
  cases hd : input.Data with
  | none => rfl
  | some handle => simp [hno handle hd]

theorem Convert_ok (policy : vtkmOutputFilterPolicy) (input : Field) (h : Heap)
    (handle : ArrayHandle) (hd : input.Data = some handle)
    (hT : handle.T ∈ policy.FieldTypeList) :
    ∃ w, (fromvtkm.ArrayConverter.call { handle with Virtual := true } h).Data = some w ∧
      fromvtkm.Convert policy input h =
        { heap := SetName (fromvtkm.ArrayConverter.call { handle with Virtual := true } h).heap
                    w input.Name,
          input := { input with Data := some { handle with
            Storage := (fromvtkm.ArrayConverter.call { handle with Virtual := true } h).Storage } },
          data := some w } := by
  have hw := call_Data { handle with Virtual := true } h
  refine ⟨_, hw, ?_⟩
  unfold fromvtkm.Convert
  rw [CastAndCall_ok policy input h handle hd hT]
  simp only [hw, hd, Option.map_some']

theorem Convert_error (policy : vtkmOutputFilterPolicy) (input : Field) (h : Heap)
    (hno : ∀ handle, input.Data = some handle → handle.T ∉ policy.FieldTypeList) :
    fromvtkm.Convert policy input h = { heap := h, input := input, data := none } := by
  unfold fromvtkm.Convert
  rw [CastAndCall_error policy input h hno]

/-- Whether a field materializes depends on its value type and the policy, not
on the object table. -/
theorem Convert_data_none_iff (policy : vtkmOutputFilterPolicy) (input : Field) (h : Heap) :
    (fromvtkm.Convert policy input h).data = none ↔
      ∀ handle, input.Data = some handle → handle.T ∉ policy.FieldTypeList := by
  constructor
  · intro hnone handle hd hT
    obtain ⟨w, _, hc⟩ := Convert_ok policy input h handle hd hT
    rw [hc] at hnone
    simp at hnone
  · intro hno
    rw [Convert_error policy input h hno]

/-- C7. For every compute field, policy and object table, `fromvtkm::Convert`
yields a result (the dispatch error never leaves it): when the dispatch raises,
the result is the null array and the table and the field are as before; when
the dispatch calls the converter, the result is a non-null array; and these are
the only two cases. -/
theorem C7_unresolved_storage_contained (policy : vtkmOutputFilterPolicy) (input : Field)
    (h : Heap) :
    (∀ e, fromvtkm.CastAndCall policy input h = Except.error e →
      fromvtkm.Convert policy input h = { heap := h, input := input, data := none }) ∧
    (∀ r, fromvtkm.CastAndCall policy input h = Except.ok r →
      ∃ p, (fromvtkm.Convert policy input h).data = some p ∧ r.Data = some p) ∧
    ((∃ e, fromvtkm.CastAndCall policy input h = Except.error e) ∨
      (∃ r, fromvtkm.CastAndCall policy input h = Except.ok r)) ∧
    ((fromvtkm.Convert policy input h).data = none ↔
      ∃ e, fromvtkm.CastAndCall policy input h = Except.error e) := by
  by_cases hno : ∀ handle, input.Data = some handle → handle.T ∉ policy.FieldTypeList
  · have he := CastAndCall_error policy input h hno
    have hc := Convert_error policy input h hno
    refine ⟨fun _ _ => hc, ?_, Or.inl ⟨_, he⟩, ?_⟩
    · intro r hr
      rw [he] at hr
      cases hr
    · rw [hc]
      exact ⟨fun _ => ⟨_, he⟩, fun _ => rfl⟩
  · push_neg at hno
    obtain ⟨handle, hd, hT⟩ := hno
    have hk := CastAndCall_ok policy input h handle hd hT
    obtain ⟨w, hw, hc⟩ := Convert_ok policy input h handle hd hT
    refine ⟨?_, ?_, Or.inr ⟨_, hk⟩, ?_⟩
    · intro e he
      rw [hk] at he
      cases he
    · intro r hr
      rw [hk] at hr
      cases hr
      exact ⟨w, by rw [hc], hw⟩
    · rw [hc]
      constructor
      · intro hnone
        simp at hnone
      · rintro ⟨e, he⟩
        rw [hk] at he
        cases he

/-- C6. For every compute field whose view storage, if any, is over a live
host array: when `fromvtkm::Convert` returns a non-null array, that array is a
live object of the resulting table and its name is the field's name, whichever
branch produced it. -/
theorem C6_result_named_after_field (policy : vtkmOutputFilterPolicy) (input : Field) (h : Heap)
    (p : Ptr)
    (hlive : ∀ handle tag q n, input.Data = some handle →
      handle.Storage = ConcreteStorage.View tag q n → q < h.length)
    (hp : (fromvtkm.Convert policy input h).data = some p) :
    ∃ a, (fromvtkm.Convert policy input h).heap[p]? = some a ∧ a.Name = some input.Name := by
  by_cases hno : ∀ handle, input.Data = some handle → handle.T ∉ policy.FieldTypeList
  · rw [Convert_error policy input h hno] at hp
    simp at hp
  · push_neg at hno
    obtain ⟨handle, hd, hT⟩ := hno
    obtain ⟨w, hw, hc⟩ := Convert_ok policy input h handle hd hT
    rw [hc] at hp ⊢
    simp only [Option.some.injEq] at hp
    subst hp
    have hlt := call_Data_live { handle with Virtual := true } h w
      (fun tag q n hS => hlive handle tag q n hd hS) hw
    obtain ⟨a, ha⟩ : ∃ a,
        (fromvtkm.ArrayConverter.call { handle with Virtual := true } h).heap[w]? = some a :=
      ⟨_, List.getElem?_eq_getElem hlt⟩
    refine ⟨{ a with Name := some input.Name }, ?_, rfl⟩
    simp only [SetName, Heap.getElem?_update, if_true, ha, Option.map_some']

theorem call_view (handle : ArrayHandle) (tag : ContainerTag) (p : Ptr) (n : Nat) (h : Heap)
    (hS : handle.Storage = ConcreteStorage.View tag p n) :
    fromvtkm.ArrayConverter.call handle h =
      { heap := Register h p, Storage := ConcreteStorage.View tag p n, Data := some p } := by
  rw [call_eq, hS]
  cases tag <;> rfl

theorem Convert_view (policy : vtkmOutputFilterPolicy) (input : Field) (h : Heap)
    (handle : ArrayHandle) (tag : ContainerTag) (p : Ptr) (n : Nat)
    (hd : input.Data = some handle) (hS : handle.Storage = ConcreteStorage.View tag p n)
    (hT : handle.T ∈ policy.FieldTypeList) :
    (fromvtkm.Convert policy input h).data = some p ∧
    (fromvtkm.Convert policy input h).heap = SetName (Register h p) p input.Name := by
  obtain ⟨w, hw, hconv⟩ := Convert_ok policy input h handle hd hT
  have hS1 : ({ handle with Virtual := true } : ArrayHandle).Storage =
      ConcreteStorage.View tag p n := hS
  rw [call_view _ tag p n h hS1] at hw hconv
  simp only [Option.some.injEq] at hw
  subst hw
  rw [hconv]
  exact ⟨rfl, rfl⟩

/-- C1. Round trip.  Let `A` be a live host array at address `p`, named, of a
dispatched element type, interleaved or planar, with 1 to 4 components, whose
value type the reverse dispatch accepts, and let the association be Points or
Cells.  Then `tovtkm::Convert` builds a field, and `fromvtkm::Convert` of that
field returns the non-null array `p`, which in the resulting table is `A` with
one more reference: same name, component count, tuple count and flat values. -/
theorem C1_round_trip (policy : vtkmOutputFilterPolicy) (h : Heap) (p : Ptr) (A : vtkDataArray)
    (name : String) (association : Int)
    (hA : h[p]? = some A) (hname : A.Name = some name)
    (htype : vtkTemplateMacro A.DataType = true)
    (hclass : A.Class = ArrayClass.AOS ∨ A.Class = ArrayClass.SOA)
    (hassoc : association = FIELD_ASSOCIATION_POINTS ∨ association = FIELD_ASSOCIATION_CELLS)
    (hc : 1 ≤ A.NumberOfComponents ∧ A.NumberOfComponents ≤ 4)
    (hpolicy : ({ ComponentType := A.DataType,
                  shape := if A.NumberOfComponents = 1 then Shape.Scalar
                           else Shape.Vec A.NumberOfComponents } : ValueT)
                ∈ policy.FieldTypeList) :
    ∃ f B, tovtkm.Convert h p association = some f ∧
      (fromvtkm.Convert policy f h).data = some p ∧
      (fromvtkm.Convert policy f h).heap[p]? = some B ∧
      B = { A with ReferenceCount := A.ReferenceCount + 1 } ∧
      B.Name = A.Name ∧ B.NumberOfComponents = A.NumberOfComponents ∧
      B.GetNumberOfTuples = A.GetNumberOfTuples ∧ B.Values = A.Values := by
  obtain ⟨f, hf, hfname, handle, hdata, hT, tag, n, hS⟩ :
      ∃ f, tovtkm.Convert h p association = some f ∧ f.Name = name ∧
        ∃ handle, f.Data = some handle ∧ handle.T ∈ policy.FieldTypeList ∧
          ∃ tag n, handle.Storage = ConcreteStorage.View tag p n :=
    ⟨_, Convert_supported h p A name association hA hname htype hclass hassoc hc, rfl, _, rfl,
      hpolicy, _, _, rfl⟩
  obtain ⟨hdat, hheap⟩ := Convert_view policy f h handle tag p n hdata hS hT
  refine ⟨f, { A with ReferenceCount := A.ReferenceCount + 1 }, hf, hdat, ?_,
    rfl, rfl, rfl, rfl, rfl⟩
  rw [hheap, hfname]
  simp only [SetName, Register, Heap.getElem?_update, if_true, hA, Option.map_some']
  cases A
  simp only at hname
  simp [hname]

theorem Heap.getElem?_Register (h : Heap) (p q : Ptr) :
    (Register h p)[q]? =
      if p = q then (h[q]?).map (fun a => { a with ReferenceCount := a.ReferenceCount + 1 })
      else h[q]? :=
  Heap.getElem?_update h p q _

/-- C2. Materializing a handle whose storage is an interleaved or planar view
over a live host array `A` at address `p` (seen directly or through the virtual
wrapper) returns `p` itself: the object at `p` is `A` with one more reference and
nothing else changed (same block, nothing copied), no object is created, every
other object is as before, and the handle keeps its storage. -/
theorem C2_view_materialization_aliases (h : Heap) (handle : ArrayHandle) (tag : ContainerTag)
    (p : Ptr) (n : Nat) (A : vtkDataArray)
    (hview : handle.Storage = ConcreteStorage.View tag p n) (hA : h[p]? = some A) :
    (fromvtkm.ArrayConverter.call handle h).Data = some p ∧
    (fromvtkm.ArrayConverter.call handle h).heap[p]? =
      some { A with ReferenceCount := A.ReferenceCount + 1 } ∧
    (fromvtkm.ArrayConverter.call handle h).heap.length = h.length ∧
    (∀ q, q ≠ p → (fromvtkm.ArrayConverter.call handle h).heap[q]? = h[q]?) ∧
    (fromvtkm.ArrayConverter.call handle h).Storage = handle.Storage := by
  have hreg : (Register h p)[p]? = some { A with ReferenceCount := A.ReferenceCount + 1 } := by
    rw [Heap.getElem?_Register]; simp [hA]
  have hlen : (Register h p).length = h.length := Heap.length_update h p _
  have hother : ∀ q, q ≠ p → (Register h p)[q]? = h[q]? := by
    intro q hq
    rw [Heap.getElem?_Register]
    simp [Ne.symm hq]
  unfold fromvtkm.ArrayConverter.call fromvtkm.ArrayConverter.call_Virtual
  rw [hview]
  cases tag <;> cases handle.Virtual <;>
    simp [fromvtkm.ArrayConverter.call_AOS, fromvtkm.ArrayConverter.call_SOA, hreg, hlen] <;>
    exact hother

/-- C2 at a planar view over `sample.velocity`. -/
theorem C2_view_materialization_aliases_witness :
    (fromvtkm.ArrayConverter.call
        { T := { ComponentType := ScalarType.VTK_DOUBLE, shape := Shape.Vec 3 }, Virtual := false,
          Storage := ConcreteStorage.View ContainerTag.vtkSOAArrayContainerTag 0 2 }
        sample.heap).Data = some 0 ∧
    (fromvtkm.ArrayConverter.call
        { T := { ComponentType := ScalarType.VTK_DOUBLE, shape := Shape.Vec 3 }, Virtual := false,
          Storage := ConcreteStorage.View ContainerTag.vtkSOAArrayContainerTag 0 2 }
        sample.heap).heap[0]? = some { sample.velocity with ReferenceCount := 2 } := by
  obtain ⟨h1, h2, _⟩ :=
    C2_view_materialization_aliases sample.heap
      { T := { ComponentType := ScalarType.VTK_DOUBLE, shape := Shape.Vec 3 }, Virtual := false,
        Storage := ConcreteStorage.View ContainerTag.vtkSOAArrayContainerTag 0 2 }
      ContainerTag.vtkSOAArrayContainerTag 0 2 sample.velocity rfl rfl
  exact ⟨h1, h2⟩

/-! ## `tovtkm::ProcessFields` -/

theorem ProcessFields_loop_iff (h : Heap) (association : Int) (slots : List Slot)
    (dataset ds : DataSet) :
    tovtkm.ProcessFields.loop h association slots dataset = some ds ↔
      ∃ fs, List.Forall₂ (fun array f => tovtkm.Convert h array association = some f)
              (slots.filterMap Slot.GetArray) fs ∧
            ds = { Fields := dataset.Fields ++ fs } := by
  induction slots generalizing dataset with
  | nil =>
    unfold tovtkm.ProcessFields.loop
    constructor
    · intro hds
      refine ⟨[], List.Forall₂.nil, ?_⟩
      simp only [Option.some.injEq] at hds
      simp [← hds]
    · rintro ⟨fs, hfs, hds⟩
      simp only [List.filterMap_nil, List.forall₂_nil_left_iff] at hfs
      subst hfs
      simp [hds]
  | cons s rest ih =>
    unfold tovtkm.ProcessFields.loop
    cases hs : s.GetArray with
    | none =>
      simp only [List.filterMap_cons, hs]
      exact ih dataset
    | some array =>
      simp only [List.filterMap_cons, hs]
      cases hc : tovtkm.Convert h array association with
      | none =>
        constructor
        · intro hn
          cases hn
        · rintro ⟨fs, hfs, _⟩
          cases hfs with
          | cons hhead _ => rw [hc] at hhead; cases hhead
      | some pfield =>
        simp only [ih, DataSet.AddField]
        constructor
        · rintro ⟨fs, hfs, hds⟩
          refine ⟨pfield :: fs, List.Forall₂.cons hc hfs, ?_⟩
          simp [hds]
        · rintro ⟨fs, hfs, hds⟩
          cases hfs with
          | cons hhead htail =>
            rw [hc] at hhead
            simp only [Option.some.injEq] at hhead
            subst hhead
            exact ⟨_, htail, by simp [hds]⟩

/-- Conversion of a live, named array is defined. -/
theorem Convert_defined (h : Heap) (input : Ptr) (A : vtkDataArray) (name : String)
    (association : Int) (hA : h[input]? = some A) (hname : A.Name = some name) :
    ∃ f, tovtkm.Convert h input association = some f := by
  unfold tovtkm.Convert tovtkm.ConvertTyped
  rw [hA]
  simp only [ConvertPointField_eq _ _ h input A name hA hname,
    ConvertCellField_eq _ _ h input A name hA hname]
  repeat' split
  all_goals exact ⟨_, rfl⟩

theorem ProcessFields_loop_defined (h : Heap) (association : Int) (slots : List Slot)
    (dataset : DataSet)
    (hall : ∀ p ∈ slots.filterMap Slot.GetArray, ∃ a name, h[p]? = some a ∧ a.Name = some name) :
    ∃ ds, tovtkm.ProcessFields.loop h association slots dataset = some ds := by
  induction slots generalizing dataset with
  | nil => exact ⟨dataset, rfl⟩
  | cons s rest ih =>
    unfold tovtkm.ProcessFields.loop
    cases hs : s.GetArray with
    | none =>
      simp only
      apply ih
      intro p hp
      exact hall p (by simp [List.filterMap_cons, hs, hp])
    | some array =>
      obtain ⟨A, name, hA, hname⟩ := hall array (by simp [List.filterMap_cons, hs])
      obtain ⟨f, hf⟩ := Convert_defined h array A name association hA hname
      simp only [hf]
      apply ih
      intro p hp
      exact hall p (by simp [List.filterMap_cons, hs, hp])

theorem ProcessFields_loop_unselected (h : Heap) (association : Int) (dataset ds : DataSet) :
    some dataset = some ds ↔
      ∃ fs, List.Forall₂ (fun array f => tovtkm.Convert h array association = some f) [] fs ∧
            ds = { Fields := dataset.Fields ++ fs } := by
  constructor
  · intro hds
    simp only [Option.some.injEq] at hds
    exact ⟨[], List.Forall₂.nil, by simp [← hds]⟩
  · rintro ⟨fs, hfs, hds⟩
    simp only [List.forall₂_nil_left_iff] at hfs
    subst hfs
    simp [hds]

theorem ProcessFields_group_iff (h : Heap) (association : Int) (sel : Prop) [Decidable sel]
    (slots : List Slot) (dataset ds : DataSet) :
    (if sel then tovtkm.ProcessFields.loop h association slots dataset else some dataset)
        = some ds ↔
      ∃ fs, List.Forall₂ (fun array f => tovtkm.Convert h array association = some f)
              (if sel then slots.filterMap Slot.GetArray else []) fs ∧
            ds = { Fields := dataset.Fields ++ fs } := by
  by_cases hsel : sel
  · simp only [if_pos hsel]
    exact ProcessFields_loop_iff h association slots dataset ds
  · simp only [if_neg hsel]
    exact ProcessFields_loop_unselected h association dataset ds

theorem ProcessFields_iff (h : Heap) (input : vtkDataSet) (dataset ds : DataSet) (fields : Nat) :
    tovtkm.ProcessFields h input dataset fields = some ds ↔
      ∃ pf cf,
        List.Forall₂ (fun array f => tovtkm.Convert h array FIELD_ASSOCIATION_POINTS = some f)
          (if fields &&& tovtkm.FieldsFlag.Points ≠ tovtkm.FieldsFlag.None
           then input.PointData.filterMap Slot.GetArray else []) pf ∧
        List.Forall₂ (fun array f => tovtkm.Convert h array FIELD_ASSOCIATION_CELLS = some f)
          (if fields &&& tovtkm.FieldsFlag.Cells ≠ tovtkm.FieldsFlag.None
           then input.CellData.filterMap Slot.GetArray else []) cf ∧
        ds = { Fields := dataset.Fields ++ pf ++ cf } := by
  unfold tovtkm.ProcessFields
  simp only
  cases hpts : (if fields &&& tovtkm.FieldsFlag.Points ≠ tovtkm.FieldsFlag.None then
      tovtkm.ProcessFields.loop h FIELD_ASSOCIATION_POINTS input.PointData dataset
    else some dataset) with
  | none =>
    simp only
    constructor
    · intro hn; cases hn
    · rintro ⟨pf, cf, hpf, _, _⟩
      have := (ProcessFields_group_iff h FIELD_ASSOCIATION_POINTS _ input.PointData dataset
        { Fields := dataset.Fields ++ pf }).mpr ⟨pf, hpf, rfl⟩
      rw [hpts] at this
      cases this
  | some d1 =>
    simp only
    obtain ⟨pf, hpf, hd1⟩ := (ProcessFields_group_iff h FIELD_ASSOCIATION_POINTS _
      input.PointData dataset d1).mp hpts
    rw [ProcessFields_group_iff h FIELD_ASSOCIATION_CELLS _ input.CellData d1 ds]
    constructor
    · rintro ⟨cf, hcf, hds⟩
      exact ⟨pf, cf, hpf, hcf, by rw [hds, hd1]⟩
    · rintro ⟨pf2, cf, hpf2, hcf, hds⟩
      have hsame := (ProcessFields_group_iff h FIELD_ASSOCIATION_POINTS _ input.PointData dataset
        { Fields := dataset.Fields ++ pf2 }).mpr ⟨pf2, hpf2, rfl⟩
      rw [hpts] at hsame
      simp only [Option.some.injEq] at hsame
      exact ⟨cf, hcf, by rw [hds, hsame]⟩

theorem ProcessFields_defined (h : Heap) (input : vtkDataSet) (dataset : DataSet) (fields : Nat)
    (hall : ∀ p ∈
        (if fields &&& tovtkm.FieldsFlag.Points ≠ tovtkm.FieldsFlag.None
         then input.PointData.filterMap Slot.GetArray else []) ++
        (if fields &&& tovtkm.FieldsFlag.Cells ≠ tovtkm.FieldsFlag.None
         then input.CellData.filterMap Slot.GetArray else []),
      ∃ a name, h[p]? = some a ∧ a.Name = some name) :
    ∃ ds, tovtkm.ProcessFields h input dataset fields = some ds := by
  unfold tovtkm.ProcessFields
  simp only
  by_cases hp : fields &&& tovtkm.FieldsFlag.Points ≠ tovtkm.FieldsFlag.None
  · obtain ⟨d1, hd1⟩ := ProcessFields_loop_defined h FIELD_ASSOCIATION_POINTS input.PointData
      dataset (fun p hpm => hall p (by simp only [if_pos hp]; exact List.mem_append_left _ hpm))
    rw [if_pos hp, hd1]
    by_cases hc : fields &&& tovtkm.FieldsFlag.Cells ≠ tovtkm.FieldsFlag.None
    · simp only [if_pos hc]
      exact ProcessFields_loop_defined h FIELD_ASSOCIATION_CELLS input.CellData d1
        (fun p hpm => hall p (by simp only [if_pos hc]; exact List.mem_append_right _ hpm))
    · simp only [if_neg hc]; exact ⟨_, rfl⟩
  · rw [if_neg hp]
    by_cases hc : fields &&& tovtkm.FieldsFlag.Cells ≠ tovtkm.FieldsFlag.None
    · simp only [if_pos hc]
      exact ProcessFields_loop_defined h FIELD_ASSOCIATION_CELLS input.CellData dataset
        (fun p hpm => hall p (by simp only [if_pos hc]; exact List.mem_append_right _ hpm))
    · simp only [if_neg hc]; exact ⟨_, rfl⟩

theorem ProcessFields_one_each (h : Heap) (dataset : DataSet) (p c : Ptr) (fp fc : Field)
    (hp : tovtkm.Convert h p FIELD_ASSOCIATION_POINTS = some fp)
    (hc : tovtkm.Convert h c FIELD_ASSOCIATION_CELLS = some fc) :
    tovtkm.ProcessFields h { PointData := [Slot.data p], CellData := [Slot.data c] } dataset
        (tovtkm.FieldsFlag.Points ||| tovtkm.FieldsFlag.Cells) =
      some { Fields := dataset.Fields ++ [fp, fc] } := by
  have h1 : (tovtkm.FieldsFlag.Points ||| tovtkm.FieldsFlag.Cells) &&& tovtkm.FieldsFlag.Points
      ≠ tovtkm.FieldsFlag.None := by decide
  have h2 : (tovtkm.FieldsFlag.Points ||| tovtkm.FieldsFlag.Cells) &&& tovtkm.FieldsFlag.Cells
      ≠ tovtkm.FieldsFlag.None := by decide
  unfold tovtkm.ProcessFields
  simp only [if_pos h1, if_pos h2, tovtkm.ProcessFields.loop, Slot.GetArray, hp, hc,
    DataSet.AddField, List.append_assoc, List.singleton_append]

/-- C10. For every object table, host dataset, compute dataset and flag value:
`tovtkm::ProcessFields` returns the dataset `ds` exactly when `ds` is the given
compute dataset followed by one field per non-null array of the selected
groups, the field of each point-data array being `Convert(array, Points)`, in
index order and only when the Points flag is set, followed by
`Convert(array, Cells)` for each cell-data array, in index order and only when
the Cells flag is set (null arrays and unselected groups contribute nothing).
The result is defined when every selected array is live and named.  With no
flag set the compute dataset is returned unchanged.  A dataset with one point
array and one cell array, both convertible, and both flags set, yields exactly
two more fields, with associations Points and Cells in that order. -/
theorem C10_forward_population (h : Heap) (input : vtkDataSet) (dataset : DataSet)
    (fields : Nat) :
    (∀ ds, tovtkm.ProcessFields h input dataset fields = some ds ↔
      ∃ pf cf,
        List.Forall₂ (fun array f => tovtkm.Convert h array FIELD_ASSOCIATION_POINTS = some f)
          (if fields &&& tovtkm.FieldsFlag.Points ≠ tovtkm.FieldsFlag.None
           then input.PointData.filterMap Slot.GetArray else []) pf ∧
        List.Forall₂ (fun array f => tovtkm.Convert h array FIELD_ASSOCIATION_CELLS = some f)
          (if fields &&& tovtkm.FieldsFlag.Cells ≠ tovtkm.FieldsFlag.None
           then input.CellData.filterMap Slot.GetArray else []) cf ∧
        ds = { Fields := dataset.Fields ++ pf ++ cf }) ∧
    ((∀ p ∈
        (if fields &&& tovtkm.FieldsFlag.Points ≠ tovtkm.FieldsFlag.None
         then input.PointData.filterMap Slot.GetArray else []) ++
        (if fields &&& tovtkm.FieldsFlag.Cells ≠ tovtkm.FieldsFlag.None
         then input.CellData.filterMap Slot.GetArray else []),
        ∃ a name, h[p]? = some a ∧ a.Name = some name) →
      ∃ ds, tovtkm.ProcessFields h input dataset fields = some ds) ∧
    (fields &&& tovtkm.FieldsFlag.Points = tovtkm.FieldsFlag.None →
      fields &&& tovtkm.FieldsFlag.Cells = tovtkm.FieldsFlag.None →
      tovtkm.ProcessFields h input dataset fields = some dataset) ∧
    (∀ (p c : Ptr) (P C : vtkDataArray) (np nc : String),
      h[p]? = some P → P.Name = some np → vtkTemplateMacro P.DataType = true →
      (P.Class = ArrayClass.AOS ∨ P.Class = ArrayClass.SOA) →
      (1 ≤ P.NumberOfComponents ∧ P.NumberOfComponents ≤ 4) →
      h[c]? = some C → C.Name = some nc → vtkTemplateMacro C.DataType = true →
      (C.Class = ArrayClass.AOS ∨ C.Class = ArrayClass.SOA) →
      (1 ≤ C.NumberOfComponents ∧ C.NumberOfComponents ≤ 4) →
      ∃ fp fc,
        tovtkm.ProcessFields h { PointData := [Slot.data p], CellData := [Slot.data c] } dataset
            (tovtkm.FieldsFlag.Points ||| tovtkm.FieldsFlag.Cells) =
          some { Fields := dataset.Fields ++ [fp, fc] } ∧
        tovtkm.Convert h p FIELD_ASSOCIATION_POINTS = some fp ∧
        tovtkm.Convert h c FIELD_ASSOCIATION_CELLS = some fc ∧
        fp.FieldAssociation = Association.POINTS ∧
        fc.FieldAssociation = Association.CELL_SET) := by
  refine ⟨fun ds => ProcessFields_iff h input dataset ds fields,
    ProcessFields_defined h input dataset fields, ?_, ?_⟩
  · intro hp hc
    unfold tovtkm.ProcessFields
    simp [hp, hc]
  · intro p c P C np nc hP hnp htP hcP hnP hC hnc htC hcC hnC
    have hp := Convert_supported h p P np FIELD_ASSOCIATION_POINTS hP hnp htP hcP
      (Or.inl rfl) hnP
    have hc := Convert_supported h c C nc FIELD_ASSOCIATION_CELLS hC hnc htC hcC
      (Or.inr rfl) hnC
    exact ⟨_, _, ProcessFields_one_each h dataset p c _ _ hp hc, hp, hc, rfl, rfl⟩

/-! ## `fromvtkm::ConvertArrays` -/

theorem body_of_fail (policy : vtkmOutputFilterPolicy) (st : fromvtkm.Output) (f : Field)
    (hno : ∀ handle, f.Data = some handle → handle.T ∉ policy.FieldTypeList) :
    fromvtkm.ConvertArrays.body policy st f = (st, f) := by
  unfold fromvtkm.ConvertArrays.body
  rw [Convert_error policy f st.heap hno]

theorem loop_append (policy : vtkmOutputFilterPolicy) (a b : List Field) (st : fromvtkm.Output) :
    fromvtkm.ConvertArrays.loop policy (a ++ b) st =
      ((fromvtkm.ConvertArrays.loop policy b (fromvtkm.ConvertArrays.loop policy a st).1).1,
       (fromvtkm.ConvertArrays.loop policy a st).2 ++
         (fromvtkm.ConvertArrays.loop policy b (fromvtkm.ConvertArrays.loop policy a st).1).2) := by
  induction a generalizing st with
  | nil => simp [fromvtkm.ConvertArrays.loop]
  | cons x a ih =>
    rw [List.cons_append, fromvtkm.ConvertArrays.loop, fromvtkm.ConvertArrays.loop, ih]
    simp only [List.cons_append]

theorem loop_snd_length (policy : vtkmOutputFilterPolicy) (fs : List Field)
    (st : fromvtkm.Output) :
    (fromvtkm.ConvertArrays.loop policy fs st).2.length = fs.length := by
  induction fs generalizing st with
  | nil => rfl
  | cons x a ih => simp [fromvtkm.ConvertArrays.loop, ih]

theorem loop_cons_fail (policy : vtkmOutputFilterPolicy) (f : Field) (post : List Field)
    (st : fromvtkm.Output)
    (hno : ∀ handle, f.Data = some handle → handle.T ∉ policy.FieldTypeList) :
    fromvtkm.ConvertArrays.loop policy (f :: post) st =
      ((fromvtkm.ConvertArrays.loop policy post st).1,
       f :: (fromvtkm.ConvertArrays.loop policy post st).2) := by
  simp only [fromvtkm.ConvertArrays.loop, body_of_fail policy st f hno]

/-- C9. For every compute dataset whose field list holds, at any position, a
field `f` that fails to materialize: `fromvtkm::ConvertArrays` leaves the same
point-data and cell-data groups and the same object table as it does for the
field list with `f` removed; the fields before and after `f` are converted as
they are without it, `f` itself is left as it was, and the call returns. -/
theorem C9_reverse_partial_failure_isolation (policy : vtkmOutputFilterPolicy)
    (pre post : List Field) (f : Field) (output : vtkDataSet) (h : Heap)
    (hfail : (fromvtkm.Convert policy f h).data = none) :
    (fromvtkm.ConvertArrays policy { Fields := pre ++ f :: post } output h).output =
      (fromvtkm.ConvertArrays policy { Fields := pre ++ post } output h).output ∧
    (fromvtkm.ConvertArrays policy { Fields := pre ++ f :: post } output h).heap =
      (fromvtkm.ConvertArrays policy { Fields := pre ++ post } output h).heap ∧
    (fromvtkm.ConvertArrays policy { Fields := pre ++ f :: post } output h).input.Fields =
      (fromvtkm.ConvertArrays policy { Fields := pre ++ post } output h).input.Fields.take
          pre.length ++
        f :: (fromvtkm.ConvertArrays policy { Fields := pre ++ post } output h).input.Fields.drop
          pre.length ∧
    (fromvtkm.ConvertArrays policy { Fields := pre ++ f :: post } output h).ret = true := by
  have hno := (Convert_data_none_iff policy f h).mp hfail
  unfold fromvtkm.ConvertArrays
  simp only [loop_append, loop_cons_fail policy f post _ hno]
  refine ⟨trivial, trivial, ?_, trivial⟩
  rw [List.take_left' (loop_snd_length policy pre _), List.drop_left' (loop_snd_length policy pre _)]

/-! ## Attribute groups -/

theorem GetName_update (h : Heap) (p : Ptr) (f : vtkDataArray → vtkDataArray)
    (hf : ∀ a, (f a).Name = a.Name) (s : Slot) :
    Slot.GetName (Heap.update h p f) s = Slot.GetName h s := by
  cases s with
  | other n => rfl
  | data q =>
    simp only [Slot.GetName, Heap.getElem?_update]
    by_cases hpq : p = q
    · rw [if_pos hpq]
      cases h[q]? <;> simp [hf]
    · rw [if_neg hpq]

theorem GetName_Register (h : Heap) (p : Ptr) (s : Slot) :
    Slot.GetName (Register h p) s = Slot.GetName h s := by
  unfold Register
  apply GetName_update
  intro a
  rfl

theorem GetName_UnRegister (h : Heap) (p : Ptr) (s : Slot) :
    Slot.GetName (UnRegister h p) s = Slot.GetName h s := by
  unfold UnRegister
  apply GetName_update
  intro a
  rfl

theorem GetName_SetArray (h : Heap) (fd : vtkFieldData) (i : Nat) (array : Ptr) (s : Slot) :
    Slot.GetName (vtkFieldData.SetArray h fd i array).1 s = Slot.GetName h s := by
  unfold vtkFieldData.SetArray
  split
  · split
    · rfl
    · simp only [GetName_Register, GetName_UnRegister]
  · simp only [GetName_Register]
  · rfl

theorem GetName_AddArray (h : Heap) (fd : vtkFieldData) (array : Ptr) (s : Slot) :
    Slot.GetName (vtkFieldData.AddArray h fd array).1 s = Slot.GetName h s := by
  unfold vtkFieldData.AddArray
  split
  · simp only [GetName_Register]
  · split
    · exact GetName_SetArray h fd _ array s
    · simp only [GetName_Register]

/-- The array just added is in the group. -/
theorem mem_AddArray (h : Heap) (fd : vtkFieldData) (array : Ptr) :
    Slot.data array ∈ (vtkFieldData.AddArray h fd array).2 := by
  unfold vtkFieldData.AddArray
  split
  · simp
  · rename_i name hname
    split
    · rename_i i hi
      obtain ⟨hlt, _, _⟩ := List.findIdx?_eq_some_iff_getElem.mp hi
      unfold vtkFieldData.SetArray
      rw [List.getElem?_eq_getElem hlt]
      cases hs : fd[i] with
      | data q =>
        simp only
        by_cases hq : q = array
        · rw [if_pos hq]
          subst hq
          exact List.mem_iff_getElem.mpr ⟨i, hlt, hs⟩
        · rw [if_neg hq]
          exact List.mem_set fd i hlt _
      | other n =>
        simp only
        exact List.mem_set fd i hlt _
    · simp

/-- An entry stays in the group when an array of another name is added. -/
theorem mem_AddArray_of_mem (h : Heap) (fd : vtkFieldData) (array : Ptr) (s : Slot)
    (hs : s ∈ fd)
    (hne : ∀ name, Slot.GetName h (Slot.data array) = some name → Slot.GetName h s ≠ some name) :
    s ∈ (vtkFieldData.AddArray h fd array).2 := by
  unfold vtkFieldData.AddArray
  split
  · exact List.mem_append_left _ hs
  · rename_i name hname
    split
    · rename_i i hi
      obtain ⟨hlt, hfound, _⟩ := List.findIdx?_eq_some_iff_getElem.mp hi
      simp only [decide_eq_true_eq] at hfound
      obtain ⟨j, hj⟩ := List.mem_iff_getElem?.mp hs
      have hij : i ≠ j := by
        intro hij
        subst hij
        rw [List.getElem?_eq_getElem hlt] at hj
        simp only [Option.some.injEq] at hj
        rw [hj] at hfound
        exact hne name hname hfound
      unfold vtkFieldData.SetArray
      split
      · split
        · exact hs
        · exact List.getElem?_mem (by rw [List.getElem?_set_ne hij]; exact hj)
      · exact List.getElem?_mem (by rw [List.getElem?_set_ne hij]; exact hj)
      · exact hs
    · exact List.mem_append_left _ hs

/-! ## One step of `ConvertArrays` -/

theorem Convert_heap_other (policy : vtkmOutputFilterPolicy) (f : Field) (h : Heap) (w q : Ptr)
    (hw : (fromvtkm.Convert policy f h).data = some w) (hq : q ≠ w) :
    (fromvtkm.Convert policy f h).heap[q]? = h[q]? := by
  by_cases hno : ∀ handle, f.Data = some handle → handle.T ∉ policy.FieldTypeList
  · rw [Convert_error policy f h hno]
  · push_neg at hno
    obtain ⟨handle, hd, hT⟩ := hno
    obtain ⟨w1, hw1, hc⟩ := Convert_ok policy f h handle hd hT
    rw [hc] at hw ⊢
    simp only [Option.some.injEq] at hw
    subst hw
    simp only [SetName, Heap.getElem?_update, if_neg (Ne.symm hq)]
    exact (call_heap _ h w1 hw1).2 q hq

theorem Convert_GetName (policy : vtkmOutputFilterPolicy) (f : Field) (h : Heap) (w : Ptr)
    (hw : (fromvtkm.Convert policy f h).data = some w) (name : String)
    (hn : Slot.GetName (fromvtkm.Convert policy f h).heap (Slot.data w) = some name) :
    name = f.Name := by
  by_cases hno : ∀ handle, f.Data = some handle → handle.T ∉ policy.FieldTypeList
  · rw [Convert_error policy f h hno] at hw
    simp at hw
  · push_neg at hno
    obtain ⟨handle, hd, hT⟩ := hno
    obtain ⟨w1, hw1, hc⟩ := Convert_ok policy f h handle hd hT
    rw [hc] at hw hn
    simp only [Option.some.injEq] at hw
    subst hw
    simp only [Slot.GetName, SetName, Heap.getElem?_update, if_true] at hn
    cases hget : (fromvtkm.ArrayConverter.call { handle with Virtual := true } h).heap[w1]? with
    | none => simp [hget] at hn
    | some a =>
      simp [hget] at hn
      exact hn.symm

theorem body_some (policy : vtkmOutputFilterPolicy) (st : fromvtkm.Output) (f : Field) (w : Ptr)
    (hw : (fromvtkm.Convert policy f st.heap).data = some w) :
    (fromvtkm.ConvertArrays.body policy st f).1.PointData =
      (if f.FieldAssociation = Association.POINTS then
        (vtkFieldData.AddArray (fromvtkm.Convert policy f st.heap).heap st.PointData w).2
       else st.PointData) ∧
    (fromvtkm.ConvertArrays.body policy st f).1.CellData =
      (if f.FieldAssociation = Association.CELL_SET then
        (vtkFieldData.AddArray (fromvtkm.Convert policy f st.heap).heap st.CellData w).2
       else st.CellData) ∧
    (fromvtkm.ConvertArrays.body policy st f).1.heap =
      UnRegister
        (if f.FieldAssociation = Association.POINTS then
          (vtkFieldData.AddArray (fromvtkm.Convert policy f st.heap).heap st.PointData w).1
         else if f.FieldAssociation = Association.CELL_SET then
          (vtkFieldData.AddArray (fromvtkm.Convert policy f st.heap).heap st.CellData w).1
         else (fromvtkm.Convert policy f st.heap).heap) w := by
  unfold fromvtkm.ConvertArrays.body
  simp only [hw]
  by_cases hp : f.FieldAssociation = Association.POINTS
  · have hc : ¬ f.FieldAssociation = Association.CELL_SET := by rw [hp]; decide
    simp only [if_pos hp, if_neg hc, and_self]
  · by_cases hc : f.FieldAssociation = Association.CELL_SET
    · simp only [if_neg hp, if_pos hc, and_self]
    · simp only [if_neg hp, if_neg hc, and_self]

theorem body_none (policy : vtkmOutputFilterPolicy) (st : fromvtkm.Output) (f : Field)
    (hw : (fromvtkm.Convert policy f st.heap).data = none) :
    fromvtkm.ConvertArrays.body policy st f = (st, f) :=
  body_of_fail policy st f ((Convert_data_none_iff policy f st.heap).mp hw)

theorem body_GetName (policy : vtkmOutputFilterPolicy) (st : fromvtkm.Output) (f : Field)
    (w : Ptr) (hw : (fromvtkm.Convert policy f st.heap).data = some w) (s : Slot) :
    Slot.GetName (fromvtkm.ConvertArrays.body policy st f).1.heap s =
      Slot.GetName (fromvtkm.Convert policy f st.heap).heap s := by
  rw [(body_some policy st f w hw).2.2, GetName_UnRegister]
  split
  · exact GetName_AddArray _ _ _ s
  · split
    · exact GetName_AddArray _ _ _ s
    · rfl

/-- After a step, the name of an object is its old name, unless the step
returned that very object and named it after the field. -/
theorem step_name (policy : vtkmOutputFilterPolicy) (st : fromvtkm.Output) (f : Field)
    (v : Ptr) (name : String)
    (hn : Slot.GetName (fromvtkm.ConvertArrays.body policy st f).1.heap (Slot.data v)
      = some name) :
    Slot.GetName st.heap (Slot.data v) = some name ∨
      ((fromvtkm.Convert policy f st.heap).data = some v ∧ name = f.Name) := by
  cases hw : (fromvtkm.Convert policy f st.heap).data with
  | none =>
    rw [body_none policy st f hw] at hn
    exact Or.inl hn
  | some w =>
    rw [body_GetName policy st f w hw] at hn
    by_cases hvw : v = w
    · subst hvw
      exact Or.inr ⟨rfl, Convert_GetName policy f st.heap v hw name hn⟩
    · left
      simp only [Slot.GetName] at hn ⊢
      rw [Convert_heap_other policy f st.heap w v hw hvw] at hn
      exact hn

/-- A step keeps an entry of a group when the group is either left alone or
receives the step's array, and the entry is not named like the field. -/
theorem step_keeps (policy : vtkmOutputFilterPolicy) (st : fromvtkm.Output) (f : Field)
    (v : Ptr) (G G1 : vtkFieldData)
    (hG : G1 = G ∨ ∃ w, (fromvtkm.Convert policy f st.heap).data = some w ∧
      G1 = (vtkFieldData.AddArray (fromvtkm.Convert policy f st.heap).heap G w).2)
    (hv : Slot.data v ∈ G)
    (hname : ∀ name, Slot.GetName st.heap (Slot.data v) = some name →
      (fromvtkm.Convert policy f st.heap).data ≠ none → f.Name ≠ name) :
    Slot.data v ∈ G1 := by
  rcases hG with hG | ⟨w, hw, hG⟩
  · rw [hG]; exact hv
  · rw [hG]
    by_cases hvw : v = w
    · subst hvw
      exact mem_AddArray _ _ _
    · apply mem_AddArray_of_mem _ _ _ _ hv
      intro name hwname hvname
      have hfn := Convert_GetName policy f st.heap w hw name hwname
      simp only [Slot.GetName] at hvname
      rw [Convert_heap_other policy f st.heap w v hw hvw] at hvname
      exact hname name hvname (by rw [hw]; simp) hfn.symm

theorem Convert_data_indep (policy : vtkmOutputFilterPolicy) (f : Field) (h1 h2 : Heap)
    (hm : (fromvtkm.Convert policy f h1).data ≠ none) :
    (fromvtkm.Convert policy f h2).data ≠ none := by
  intro hn
  exact hm ((Convert_data_none_iff policy f h1).mpr ((Convert_data_none_iff policy f h2).mp hn))

/-- Through the rest of the loop, an entry of a group stays there as long as
the fields still to come carry names that differ from the entry's current name
and from one another. -/
theorem loop_keeps (policy : vtkmOutputFilterPolicy) (sel : fromvtkm.Output → vtkFieldData)
    (hsel : ∀ st f, sel (fromvtkm.ConvertArrays.body policy st f).1 = sel st ∨
      ∃ w, (fromvtkm.Convert policy f st.heap).data = some w ∧
        sel (fromvtkm.ConvertArrays.body policy st f).1 =
          (vtkFieldData.AddArray (fromvtkm.Convert policy f st.heap).heap (sel st) w).2)
    (h0 : Heap) (post : List Field) (st : fromvtkm.Output) (v : Ptr)
    (hv : Slot.data v ∈ sel st)
    (hname : ∀ name, Slot.GetName st.heap (Slot.data v) = some name →
      ∀ g ∈ post, (fromvtkm.Convert policy g h0).data ≠ none → g.Name ≠ name)
    (hpair : post.Pairwise (fun g1 g2 =>
      (fromvtkm.Convert policy g1 h0).data ≠ none →
      (fromvtkm.Convert policy g2 h0).data ≠ none → g1.Name ≠ g2.Name)) :
    Slot.data v ∈ sel (fromvtkm.ConvertArrays.loop policy post st).1 := by
  induction post generalizing st with
  | nil => exact hv
  | cons g rest ih =>
    rw [fromvtkm.ConvertArrays.loop]
    rw [List.pairwise_cons] at hpair
    apply ih
    · apply step_keeps policy st g v (sel st) _ (hsel st g) hv
      intro name hvname hm
      exact hname name hvname g (List.mem_cons_self g rest)
        (Convert_data_indep policy g st.heap h0 hm)
    · intro name hvname g1 hg1 hm1
      rcases step_name policy st g v name hvname with hold | ⟨hdat, hnm⟩
      · exact hname name hold g1 (List.mem_cons_of_mem g hg1) hm1
      · rw [hnm]
        have hmg : (fromvtkm.Convert policy g h0).data ≠ none :=
          Convert_data_indep policy g st.heap h0 (by rw [hdat]; simp)
        exact fun heq => hpair.1 g1 hg1 hmg hm1 heq.symm
    · exact hpair.2

theorem sel_PointData (policy : vtkmOutputFilterPolicy) (st : fromvtkm.Output) (f : Field) :
    (fromvtkm.ConvertArrays.body policy st f).1.PointData = st.PointData ∨
      ∃ w, (fromvtkm.Convert policy f st.heap).data = some w ∧
        (fromvtkm.ConvertArrays.body policy st f).1.PointData =
          (vtkFieldData.AddArray (fromvtkm.Convert policy f st.heap).heap st.PointData w).2 := by
  cases hw : (fromvtkm.Convert policy f st.heap).data with
  | none => left; rw [body_none policy st f hw]
  | some w =>
    rw [(body_some policy st f w hw).1]
    by_cases hp : f.FieldAssociation = Association.POINTS
    · right; exact ⟨w, rfl, by rw [if_pos hp]⟩
    · left; rw [if_neg hp]

theorem sel_CellData (policy : vtkmOutputFilterPolicy) (st : fromvtkm.Output) (f : Field) :
    (fromvtkm.ConvertArrays.body policy st f).1.CellData = st.CellData ∨
      ∃ w, (fromvtkm.Convert policy f st.heap).data = some w ∧
        (fromvtkm.ConvertArrays.body policy st f).1.CellData =
          (vtkFieldData.AddArray (fromvtkm.Convert policy f st.heap).heap st.CellData w).2 := by
  cases hw : (fromvtkm.Convert policy f st.heap).data with
  | none => left; rw [body_none policy st f hw]
  | some w =>
    rw [(body_some policy st f w hw).2.1]
    by_cases hp : f.FieldAssociation = Association.CELL_SET
    · right; exact ⟨w, rfl, by rw [if_pos hp]⟩
    · left; rw [if_neg hp]

/-- C8 counterexample. Two point fields named "a" over computed storage, an
empty output dataset and an empty table: the first field materializes to the
new array at address 0, yet after `ConvertArrays` that array is not in the
point-data group (the second field's array replaced it). -/
theorem C8_counterexample :
    (fromvtkm.Convert sample.policy sample.first []).data = some 0 ∧
    sample.first.FieldAssociation = Association.POINTS ∧
    Slot.data 0 ∉
      (fromvtkm.ConvertArrays sample.policy { Fields := [sample.first, sample.second] }
        { PointData := [], CellData := [] } []).output.PointData ∧
    (fromvtkm.ConvertArrays sample.policy { Fields := [sample.first, sample.second] }
        { PointData := [], CellData := [] } []).output.PointData = [Slot.data 1] := by
  decide

/-- C8 (amended). `ConvertArrays` handles the fields in order, each by one step
on the object table and the two groups.  A step whose field materializes to the
array `v`: for association Points it adds `v` to point-data with `AddArray` (so
`v` is in point-data after the step) and leaves cell-data as it was; for Cells
it adds `v` to cell-data and leaves point-data as it was; for any other
association it leaves both groups as they were and drops one reference of `v`.
A step whose field does not materialize leaves the table and both groups as they
were.  After the whole call, the array of a Points (Cells) field is in the
point-data (cell-data) group provided that, among this field and the fields
after it, those that materialize carry pairwise distinct names. -/
theorem C8_reverse_routing (policy : vtkmOutputFilterPolicy) :
    (∀ (st : fromvtkm.Output) (f : Field) (v : Ptr),
      (fromvtkm.Convert policy f st.heap).data = some v →
      (f.FieldAssociation = Association.POINTS →
        (fromvtkm.ConvertArrays.body policy st f).1.PointData =
          (vtkFieldData.AddArray (fromvtkm.Convert policy f st.heap).heap st.PointData v).2 ∧
        Slot.data v ∈ (fromvtkm.ConvertArrays.body policy st f).1.PointData ∧
        (fromvtkm.ConvertArrays.body policy st f).1.CellData = st.CellData) ∧
      (f.FieldAssociation = Association.CELL_SET →
        (fromvtkm.ConvertArrays.body policy st f).1.CellData =
          (vtkFieldData.AddArray (fromvtkm.Convert policy f st.heap).heap st.CellData v).2 ∧
        Slot.data v ∈ (fromvtkm.ConvertArrays.body policy st f).1.CellData ∧
        (fromvtkm.ConvertArrays.body policy st f).1.PointData = st.PointData) ∧
      (f.FieldAssociation ≠ Association.POINTS → f.FieldAssociation ≠ Association.CELL_SET →
        (fromvtkm.ConvertArrays.body policy st f).1.PointData = st.PointData ∧
        (fromvtkm.ConvertArrays.body policy st f).1.CellData = st.CellData ∧
        (fromvtkm.ConvertArrays.body policy st f).1.heap =
          UnRegister (fromvtkm.Convert policy f st.heap).heap v)) ∧
    (∀ (st : fromvtkm.Output) (f : Field),
      (fromvtkm.Convert policy f st.heap).data = none →
      (fromvtkm.ConvertArrays.body policy st f).1 = st) ∧
    (∀ (pre post : List Field) (f : Field) (output : vtkDataSet) (h : Heap) (v : Ptr),
      (fromvtkm.Convert policy f
        (fromvtkm.ConvertArrays.loop policy pre
          { heap := h, PointData := output.PointData, CellData := output.CellData }).1.heap).data
        = some v →
      (f :: post).Pairwise (fun g1 g2 =>
        (fromvtkm.Convert policy g1 h).data ≠ none →
        (fromvtkm.Convert policy g2 h).data ≠ none → g1.Name ≠ g2.Name) →
      (f.FieldAssociation = Association.POINTS →
        Slot.data v ∈ (fromvtkm.ConvertArrays policy { Fields := pre ++ f :: post }
          output h).output.PointData) ∧
      (f.FieldAssociation = Association.CELL_SET →
        Slot.data v ∈ (fromvtkm.ConvertArrays policy { Fields := pre ++ f :: post }
          output h).output.CellData)) := by
  refine ⟨?_, ?_, ?_⟩
  · intro st f v hv
    obtain ⟨hpd, hcd, hheap⟩ := body_some policy st f v hv
    refine ⟨?_, ?_, ?_⟩
    · intro hp
      have hc : ¬ f.FieldAssociation = Association.CELL_SET := by rw [hp]; decide
      rw [if_pos hp] at hpd
      rw [if_neg hc] at hcd
      exact ⟨hpd, by rw [hpd]; exact mem_AddArray _ _ _, hcd⟩
    · intro hc
      have hp : ¬ f.FieldAssociation = Association.POINTS := by rw [hc]; decide
      rw [if_neg hp] at hpd
      rw [if_pos hc] at hcd
      exact ⟨hcd, by rw [hcd]; exact mem_AddArray _ _ _, hpd⟩
    · intro hp hc
      rw [if_neg hp] at hpd
      rw [if_neg hc] at hcd
      rw [if_neg hp, if_neg hc] at hheap
      exact ⟨hpd, hcd, hheap⟩
  · intro st f hnone
    rw [body_none policy st f hnone]
  · intro pre post f output h v hv hpair
    rw [List.pairwise_cons] at hpair
    have hmf : (fromvtkm.Convert policy f h).data ≠ none :=
      Convert_data_indep policy f _ h (by rw [hv]; simp)
    have hname : ∀ name,
        Slot.GetName (fromvtkm.ConvertArrays.body policy
          (fromvtkm.ConvertArrays.loop policy pre
            { heap := h, PointData := output.PointData, CellData := output.CellData }).1 f).1.heap
          (Slot.data v) = some name →
        ∀ g ∈ post, (fromvtkm.Convert policy g h).data ≠ none → g.Name ≠ name := by
      intro name hn g hg hmg
      rw [body_GetName policy _ f v hv] at hn
      rw [Convert_GetName policy f _ v hv name hn]
      exact fun heq => hpair.1 g hg hmf hmg heq.symm
    obtain ⟨hpd, hcd, _⟩ := body_some policy _ f v hv
    unfold fromvtkm.ConvertArrays
    simp only [loop_append]
    rw [fromvtkm.ConvertArrays.loop]
    constructor
    · intro hp
      apply loop_keeps policy (fun st => st.PointData) (sel_PointData policy) h post _ v _ hname
        hpair.2
      show Slot.data v ∈ (fromvtkm.ConvertArrays.body policy _ f).1.PointData
      rw [hpd, if_pos hp]
      exact mem_AddArray _ _ _
    · intro hc
      apply loop_keeps policy (fun st => st.CellData) (sel_CellData policy) h post _ v _ hname
        hpair.2
      show Slot.data v ∈ (fromvtkm.ConvertArrays.body policy _ f).1.CellData
      rw [hcd, if_pos hc]
      exact mem_AddArray _ _ _

/-! ## Witnesses at sample inputs -/

/-- C1 at `sample.velocity` (planar, three components) and the cell association. -/
theorem C1_round_trip_witness :
    ∃ f B, tovtkm.Convert sample.heap 0 FIELD_ASSOCIATION_CELLS = some f ∧
      (fromvtkm.Convert sample.policy f sample.heap).data = some 0 ∧
      (fromvtkm.Convert sample.policy f sample.heap).heap[0]? = some B ∧
      B.Name = some "velocity" ∧ B.NumberOfComponents = 3 ∧ B.GetNumberOfTuples = 2 ∧
      B.Values = [1, 2, 3, 4, 5, 6] := by
  obtain ⟨f, B, h1, h2, h3, _, h5, h6, h7, h8⟩ :=
    C1_round_trip sample.policy sample.heap 0 sample.velocity "velocity" FIELD_ASSOCIATION_CELLS
      rfl rfl rfl (Or.inr rfl) (Or.inr rfl) (by decide) (by decide)
  exact ⟨f, B, h1, h2, h3, h5, h6, h7, h8⟩

/-- C3 at `sample.basic` seen through the virtual wrapper. -/
theorem C3_owned_basic_hand_off_witness :
    ∃ array : vtkDataArray,
      (fromvtkm.ArrayConverter.call
        { T := { ComponentType := ScalarType.VTK_DOUBLE, shape := Shape.Vec 3 },
          Virtual := true, Storage := ConcreteStorage.Basic sample.basic } sample.heap).heap
        = sample.heap ++ [array] ∧
      array.NumberOfComponents = 3 ∧ array.GetNumberOfTuples = 2 ∧
      array.Array = some { address := Address.external 3, contents := [1, 2, 3, 4, 5, 6] } ∧
      array.FreeFunction = some 99 := by
  obtain ⟨array, _, h2, _, _, h5, _, h7, h8, h9, _⟩ :=
    C3_owned_basic_hand_off sample.heap
      { T := { ComponentType := ScalarType.VTK_DOUBLE, shape := Shape.Vec 3 },
        Virtual := true, Storage := ConcreteStorage.Basic sample.basic }
      sample.basic { address := Address.external 3, contents := [1, 2, 3, 4, 5, 6] } 2 3
      rfl rfl rfl rfl (by decide)
  exact ⟨array, h2, h5, h7, h8, h9⟩

/-- C4 at `sample.pressure` (one component) and at `sample.wide` (five). -/
theorem C4_component_count_boundary_witness :
    (∃ f handle, tovtkm.Convert sample.heap 1 FIELD_ASSOCIATION_POINTS = some f ∧
      f.Data = some handle ∧ f ≠ Field.empty) ∧
    tovtkm.Convert [sample.wide] 0 FIELD_ASSOCIATION_POINTS = some Field.empty :=
  ⟨(C4_component_count_boundary sample.heap 1 sample.pressure "pressure"
      FIELD_ASSOCIATION_POINTS rfl rfl rfl (Or.inl rfl) (Or.inl rfl)).1 (by decide),
   ((C4_component_count_boundary [sample.wide] 0 sample.wide "wide"
      FIELD_ASSOCIATION_POINTS rfl rfl rfl (Or.inl rfl) (Or.inl rfl)).2 (by decide)).1⟩

/-- C5 at `sample.velocity` and the cell association. -/
theorem C5_field_semantics_preserved_witness :
    tovtkm.Convert sample.heap 0 FIELD_ASSOCIATION_CELLS = some sample.velocityField :=
  C5_field_semantics_preserved sample.heap 0 sample.velocity "velocity" FIELD_ASSOCIATION_CELLS
    3 2 rfl rfl rfl (Or.inr rfl) (Or.inr rfl) rfl (by decide) rfl

/-- C6 at the view field `sample.velocityField`. -/
theorem C6_result_named_after_field_witness :
    ∃ a, (fromvtkm.Convert sample.policy sample.velocityField sample.heap).heap[0]? = some a ∧
      a.Name = some "velocity" :=
  C6_result_named_after_field sample.policy sample.velocityField sample.heap 0
    (by
      intro handle tag q n hd hS
      simp only [sample.velocityField, Option.some.injEq] at hd
      subst hd
      simp only [ConcreteStorage.View.injEq] at hS
      rw [← hS.2.1]
      decide)
    (by decide)

/-- C9 with `sample.unlisted`, which fails to materialize, between two fields
that do. -/
theorem C9_reverse_partial_failure_isolation_witness :
    (fromvtkm.Convert sample.policy sample.unlisted sample.heap).data = none ∧
    (fromvtkm.ConvertArrays sample.policy
        { Fields := [sample.first] ++ sample.unlisted :: [sample.temperature] }
        { PointData := [], CellData := [] } sample.heap).output =
      (fromvtkm.ConvertArrays sample.policy
        { Fields := [sample.first] ++ [sample.temperature] }
        { PointData := [], CellData := [] } sample.heap).output ∧
    (fromvtkm.ConvertArrays sample.policy
        { Fields := [sample.first] ++ [sample.temperature] }
        { PointData := [], CellData := [] } sample.heap).output =
      { PointData := [Slot.data 2, Slot.data 3], CellData := [] } :=
  ⟨by decide,
   (C9_reverse_partial_failure_isolation sample.policy [sample.first] [sample.temperature]
      sample.unlisted { PointData := [], CellData := [] } sample.heap (by decide)).1,
   by decide⟩

/-- C8 at two fields with distinct names: both arrays are in point-data at the
end. -/
theorem C8_reverse_routing_witness :
    Slot.data 2 ∈ (fromvtkm.ConvertArrays sample.policy
        { Fields := [] ++ sample.first :: [sample.temperature] }
        { PointData := [], CellData := [] } sample.heap).output.PointData :=
  ((C8_reverse_routing sample.policy).2.2 [] [sample.temperature] sample.first
    { PointData := [], CellData := [] } sample.heap 2 (by decide) (by decide)).1 (by decide)

/-- C10 at `sample.pressure` as the point array and `sample.velocity` as the
cell array. -/
theorem C10_forward_population_witness :
    ∃ fp fc,
      tovtkm.ProcessFields sample.heap { PointData := [Slot.data 1], CellData := [Slot.data 0] }
          { Fields := [] } (tovtkm.FieldsFlag.Points ||| tovtkm.FieldsFlag.Cells) =
        some { Fields := [] ++ [fp, fc] } ∧
      fp.FieldAssociation = Association.POINTS ∧ fc.FieldAssociation = Association.CELL_SET := by
  obtain ⟨fp, fc, h1, _, _, h4, h5⟩ :=
    (C10_forward_population sample.heap { PointData := [], CellData := [] } { Fields := [] }
      0).2.2.2 1 0 sample.pressure sample.velocity "pressure" "velocity"
      rfl rfl rfl (Or.inl rfl) (by decide) rfl rfl rfl (Or.inr rfl) (by decide)
  exact ⟨fp, fc, h1, h4, h5⟩

/-! ## Dispatch in `tovtkm::Convert` -/

theorem Convert_undispatched (h : Heap) (input : Ptr) (A : vtkDataArray) (association : Int)
    (hA : h[input]? = some A)
    (hout : vtkTemplateMacro A.DataType = false ∨ A.Class = ArrayClass.Other) :
    tovtkm.Convert h input association = some Field.empty := by
  unfold tovtkm.Convert
  rw [hA]
  rcases hout with ht | hc
  · simp [ht]
  · simp [hc]

/-- C12. For a live host array whose element type is outside the dispatched
type set, or whose class is neither the interleaved nor the planar array of its
element type, `tovtkm::Convert` returns the default-constructed field (a defined
result, whatever the association, the name and the component count).  For a
live array of a dispatched type, the one typed conversion invoked is the
interleaved one when the array is interleaved, and the planar one when it is
planar (the planar downcast is only reached when the interleaved one fails). -/
theorem C12_forward_dispatch_failure_policy (h : Heap) (input : Ptr) (A : vtkDataArray)
    (association : Int) (hA : h[input]? = some A) :
    ((vtkTemplateMacro A.DataType = false ∨ A.Class = ArrayClass.Other) →
      tovtkm.Convert h input association = some Field.empty) ∧
    (vtkTemplateMacro A.DataType = true → A.Class = ArrayClass.AOS →
      tovtkm.Convert h input association =
        tovtkm.ConvertTyped A.DataType ContainerTag.vtkAOSArrayContainerTag h input
          association) ∧
    (vtkTemplateMacro A.DataType = true → A.Class = ArrayClass.SOA →
      tovtkm.Convert h input association =
        tovtkm.ConvertTyped A.DataType ContainerTag.vtkSOAArrayContainerTag h input
          association) := by
  refine ⟨Convert_undispatched h input A association hA, ?_, ?_⟩
  · intro ht hc
    rw [Convert_eq_typed h input A association hA ht (Or.inl hc), if_pos hc]
  · intro ht hc
    have hne : ¬ A.Class = ArrayClass.AOS := by rw [hc]; decide
    rw [Convert_eq_typed h input A association hA ht (Or.inr hc), if_neg hne]

/-- C18. For every element type, layout tag, object table and array address, and
every association value other than the point and the cell association, the typed
`tovtkm::Convert<DataArrayType>` returns the default-constructed field. -/
theorem C18_typed_convert_other_association (ValueType : ScalarType) (TagType : ContainerTag)
    (h : Heap) (input : Ptr) (association : Int)
    (hp : association ≠ FIELD_ASSOCIATION_POINTS)
    (hc : association ≠ FIELD_ASSOCIATION_CELLS) :
    tovtkm.ConvertTyped ValueType TagType h input association = some Field.empty := by
  unfold tovtkm.ConvertTyped
  rw [if_neg hp, if_neg hc]

/-- C17. For every handle with virtual storage (value type `T`, wrapped storage
`wrapped`), the materializer runs the overload for virtual storage, and its
result is what materializing the wrapped concrete handle directly gives: the
aliasing overload for an interleaved view, else the one for a planar view, else
the buffer hand-off for owned-basic storage, and, when the wrapped storage is
none of the three, the generic element-wise copy of the handle. -/
theorem C17_polymorphic_storage_resolution (T : ValueT) (wrapped : ConcreteStorage)
    (h : Heap) :
    fromvtkm.ArrayConverter.call { T := T, Virtual := true, Storage := wrapped } h =
      fromvtkm.ArrayConverter.call_Virtual T wrapped h ∧
    fromvtkm.ArrayConverter.call { T := T, Virtual := true, Storage := wrapped } h =
      fromvtkm.ArrayConverter.call { T := T, Virtual := false, Storage := wrapped } h ∧
    (∀ p n, wrapped = ConcreteStorage.View ContainerTag.vtkAOSArrayContainerTag p n →
      fromvtkm.ArrayConverter.call { T := T, Virtual := true, Storage := wrapped } h =
        fromvtkm.ArrayConverter.call_AOS p n h) ∧
    (∀ p n, wrapped = ConcreteStorage.View ContainerTag.vtkSOAArrayContainerTag p n →
      fromvtkm.ArrayConverter.call { T := T, Virtual := true, Storage := wrapped } h =
        fromvtkm.ArrayConverter.call_SOA p n h) ∧
    (∀ s, wrapped = ConcreteStorage.Basic s →
      fromvtkm.ArrayConverter.call { T := T, Virtual := true, Storage := wrapped } h =
        fromvtkm.ArrayConverter.call_Basic T s h) ∧
    (∀ portal, wrapped = ConcreteStorage.Other portal →
      fromvtkm.ArrayConverter.call { T := T, Virtual := true, Storage := wrapped } h =
        fromvtkm.ArrayConverter.CopyEachValue T portal h) := by
  refine ⟨?_, ?_, ?_, ?_, ?_, ?_⟩
  · simp [fromvtkm.ArrayConverter.call]
  · rw [call_eq, call_eq]
  · intro p n hS; rw [call_eq, hS]
  · intro p n hS; rw [call_eq, hS]
  · intro s hS; rw [call_eq, hS]
  · intro portal hS; rw [call_eq, hS]

/-- C19. For every policy, compute dataset, host dataset and object table,
`fromvtkm::ConvertArrays` returns true: with no field, with fields that all fail
to materialize, with fields of an unrecognized association alike; any two calls
return the same value, whatever was dropped. -/
theorem C19_ConvertArrays_returns_true (policy : vtkmOutputFilterPolicy) (input : DataSet)
    (output : vtkDataSet) (h : Heap) :
    (fromvtkm.ConvertArrays policy input output h).ret = true ∧
    (fromvtkm.ConvertArrays policy { Fields := [] } output h).ret = true ∧
    (∀ (policy2 : vtkmOutputFilterPolicy) (input2 : DataSet) (output2 : vtkDataSet) (h2 : Heap),
      (fromvtkm.ConvertArrays policy2 input2 output2 h2).ret =
        (fromvtkm.ConvertArrays policy input output h).ret) :=
  ⟨rfl, rfl, fun _ _ _ _ => rfl⟩

/-! ## A malformed array among the arrays of `ProcessFields` -/

theorem forall₂_append_left {α β : Type} (R : α → β → Prop) (a b : List α) (l : List β)
    (hl : List.Forall₂ R (a ++ b) l) :
    ∃ l1 l2, l = l1 ++ l2 ∧ List.Forall₂ R a l1 ∧ List.Forall₂ R b l2 := by
  induction a generalizing l with
  | nil => exact ⟨[], l, rfl, List.Forall₂.nil, hl⟩
  | cons x a ih =>
    rw [List.cons_append] at hl
    cases hl with
    | cons hx htail =>
      obtain ⟨l1, l2, hl12, h1, h2⟩ := ih _ htail
      exact ⟨_ :: l1, l2, by rw [hl12]; rfl, List.Forall₂.cons hx h1, h2⟩

theorem forall₂_insert {α β : Type} (R : α → β → Prop) (a b : List α) (l1 l2 : List β)
    (x : α) (y : β) (h1 : List.Forall₂ R a l1) (h2 : List.Forall₂ R b l2) (hxy : R x y) :
    List.Forall₂ R (a ++ x :: b) (l1 ++ y :: l2) :=
  List.rel_append h1 (List.Forall₂.cons hxy h2)

theorem filterMap_insert (pre post : List Slot) (m : Ptr) :
    (pre ++ Slot.data m :: post).filterMap Slot.GetArray =
      pre.filterMap Slot.GetArray ++ m :: post.filterMap Slot.GetArray := by
  rw [List.filterMap_append, List.filterMap_cons]
  rfl

/-- C11 counterexample. Point-data holds the valid `sample.pressure` and the
five-component `sample.wide`, and the Points flag is set: the malformed array
converts to the default-constructed field, and `ProcessFields` leaves two
fields, the second of them that empty field, where the claim has one. -/
theorem C11_counterexample :
    tovtkm.Convert sample.mixed 1 FIELD_ASSOCIATION_POINTS = some Field.empty ∧
    (tovtkm.ProcessFields sample.mixed { PointData := [Slot.data 0], CellData := [] }
        { Fields := [] } tovtkm.FieldsFlag.Points).map (fun ds => ds.Fields.length) = some 1 ∧
    (tovtkm.ProcessFields sample.mixed { PointData := [Slot.data 0, Slot.data 1], CellData := [] }
        { Fields := [] } tovtkm.FieldsFlag.Points).map (fun ds => ds.Fields.length) = some 2 ∧
    (tovtkm.ProcessFields sample.mixed { PointData := [Slot.data 0, Slot.data 1], CellData := [] }
        { Fields := [] } tovtkm.FieldsFlag.Points).map (fun ds => ds.Fields[1]?) =
      some (some Field.empty) := by
  decide

/-- C11 (amended). Let a selected group hold, at any position, an array `m`
that converts to the default-constructed field (for example one with five
components).  Whenever `ProcessFields` is defined on the dataset without `m`,
it is defined on the dataset with `m`, and the compute dataset it leaves holds
the same converted fields, in the same order, with the default-constructed
field inserted at the position of `m`: the malformed array is not skipped, it
contributes the empty field, and the fields of the other arrays are as when it
is absent. -/
theorem C11_forward_partial_failure_isolation (h : Heap) (pre post other : List Slot)
    (dataset : DataSet) (fields : Nat) (m : Ptr) :
    (fields &&& tovtkm.FieldsFlag.Points ≠ tovtkm.FieldsFlag.None →
      tovtkm.Convert h m FIELD_ASSOCIATION_POINTS = some Field.empty →
      ∀ ds0, tovtkm.ProcessFields h { PointData := pre ++ post, CellData := other } dataset
          fields = some ds0 →
        ∃ fpre fpost fcells,
          List.Forall₂ (fun array f => tovtkm.Convert h array FIELD_ASSOCIATION_POINTS = some f)
            (pre.filterMap Slot.GetArray) fpre ∧
          List.Forall₂ (fun array f => tovtkm.Convert h array FIELD_ASSOCIATION_POINTS = some f)
            (post.filterMap Slot.GetArray) fpost ∧
          ds0 = { Fields := dataset.Fields ++ fpre ++ fpost ++ fcells } ∧
          tovtkm.ProcessFields h { PointData := pre ++ Slot.data m :: post, CellData := other }
              dataset fields =
            some { Fields := dataset.Fields ++ fpre ++ Field.empty :: fpost ++ fcells }) ∧
    (fields &&& tovtkm.FieldsFlag.Cells ≠ tovtkm.FieldsFlag.None →
      tovtkm.Convert h m FIELD_ASSOCIATION_CELLS = some Field.empty →
      ∀ ds0, tovtkm.ProcessFields h { PointData := other, CellData := pre ++ post } dataset
          fields = some ds0 →
        ∃ fpoints fpre fpost,
          List.Forall₂ (fun array f => tovtkm.Convert h array FIELD_ASSOCIATION_CELLS = some f)
            (pre.filterMap Slot.GetArray) fpre ∧
          List.Forall₂ (fun array f => tovtkm.Convert h array FIELD_ASSOCIATION_CELLS = some f)
            (post.filterMap Slot.GetArray) fpost ∧
          ds0 = { Fields := dataset.Fields ++ fpoints ++ fpre ++ fpost } ∧
          tovtkm.ProcessFields h { PointData := other, CellData := pre ++ Slot.data m :: post }
              dataset fields =
            some { Fields := dataset.Fields ++ fpoints ++ fpre ++ Field.empty :: fpost }) := by
  constructor
  · intro hsel hm ds0 hds0
    obtain ⟨pf, cf, hpf, hcf, hds⟩ := (ProcessFields_iff h _ dataset ds0 fields).mp hds0
    simp only [if_pos hsel, List.filterMap_append] at hpf
    obtain ⟨fpre, fpost, hsplit, h1, h2⟩ := forall₂_append_left _ _ _ _ hpf
    refine ⟨fpre, fpost, cf, h1, h2, by rw [hds, hsplit]; simp [List.append_assoc], ?_⟩
    apply (ProcessFields_iff h _ dataset _ fields).mpr
    refine ⟨fpre ++ Field.empty :: fpost, cf, ?_, hcf, by simp [List.append_assoc]⟩
    simp only [if_pos hsel, filterMap_insert]
    exact forall₂_insert _ _ _ _ _ m Field.empty h1 h2 hm
  · intro hsel hm ds0 hds0
    obtain ⟨pf, cf, hpf, hcf, hds⟩ := (ProcessFields_iff h _ dataset ds0 fields).mp hds0
    simp only [if_pos hsel, List.filterMap_append] at hcf
    obtain ⟨fpre, fpost, hsplit, h1, h2⟩ := forall₂_append_left _ _ _ _ hcf
    refine ⟨pf, fpre, fpost, h1, h2, by rw [hds, hsplit]; simp [List.append_assoc], ?_⟩
    apply (ProcessFields_iff h _ dataset _ fields).mpr
    refine ⟨pf, fpre ++ Field.empty :: fpost, hpf, ?_, by simp [List.append_assoc]⟩
    simp only [if_pos hsel, filterMap_insert]
    exact forall₂_insert _ _ _ _ _ m Field.empty h1 h2 hm

/-! ## Geometry -/

/-- C13. For every coordinate system and object table the geometry conversion
yields a result (the dispatch error never leaves it, and the release of the
produced array never goes through a null pointer).  When materializing the
coordinate array raises, the result is the null point set and the table and the
coordinate system are as before.  Otherwise the result is a new point set whose
data array is the array the materializer produced, the converter used for
fields, the point set holding the one reference the conversion leaves on it.
The result is null exactly when the dispatch raises. -/
theorem C13_geometry_conversion_reports_failure (input : CoordinateSystem) (h : Heap) :
    (∀ e, fromvtkm.CastAndCallCoordinates input h = Except.error e →
      fromvtkm.ConvertCoordinateSystem input h =
        some { heap := h, input := input, points := none }) ∧
    (∀ handle, input.Data = some handle →
      ∃ pdata, (fromvtkm.ArrayConverter.call handle h).Data = some pdata ∧
        fromvtkm.CastAndCallCoordinates input h =
          Except.ok (fromvtkm.ArrayConverter.call handle h) ∧
        fromvtkm.ConvertCoordinateSystem input h =
          some { heap := UnRegister (Register (fromvtkm.ArrayConverter.call handle h).heap pdata)
                   pdata,
                 input := { Data := some { handle with
                   Storage := (fromvtkm.ArrayConverter.call handle h).Storage } },
                 points := some { Data := some pdata } }) ∧
    (∃ r, fromvtkm.ConvertCoordinateSystem input h = some r ∧
      (r.points = none ↔ ∃ e, fromvtkm.CastAndCallCoordinates input h = Except.error e)) := by
  cases hd : input.Data with
  | none =>
    have he : fromvtkm.CastAndCallCoordinates input h = Except.error Error.ErrorBadType := by
      simp [fromvtkm.CastAndCallCoordinates, hd]
    have hc : fromvtkm.ConvertCoordinateSystem input h =
        some { heap := h, input := input, points := none } := by
      simp [fromvtkm.ConvertCoordinateSystem, he]
    refine ⟨fun _ _ => hc, ?_, ⟨_, hc, ?_⟩⟩
    · intro handle hh
      cases hh
    · exact ⟨fun _ => ⟨_, he⟩, fun _ => rfl⟩
  | some handle =>
    have hk : fromvtkm.CastAndCallCoordinates input h =
        Except.ok (fromvtkm.ArrayConverter.call handle h) := by
      simp [fromvtkm.CastAndCallCoordinates, hd]
    have hdata := call_Data handle h
    have hc : fromvtkm.ConvertCoordinateSystem input h =
        some { heap := UnRegister (Register (fromvtkm.ArrayConverter.call handle h).heap
                 (match handle.Storage with
                  | ConcreteStorage.View _ p _ => p
                  | _ => h.length))
                 (match handle.Storage with
                  | ConcreteStorage.View _ p _ => p
                  | _ => h.length),
               input := { Data := some { handle with
                 Storage := (fromvtkm.ArrayConverter.call handle h).Storage } },
               points := some { Data := some (match handle.Storage with
                  | ConcreteStorage.View _ p _ => p
                  | _ => h.length) } } := by
      simp [fromvtkm.ConvertCoordinateSystem, hk, hdata, hd, vtkPoints.SetData]
    refine ⟨?_, ?_, ⟨_, hc, ?_⟩⟩
    · intro e he
      rw [hk] at he
      cases he
    · intro handle2 hh
      simp only [Option.some.injEq] at hh
      subst hh
      exact ⟨_, hdata, hk, hc⟩
    · constructor
      · intro hn
        simp at hn
      · rintro ⟨e, he⟩
        rw [hk] at he
        cases he

/-! ## The exporter's file format -/

/-- C20. For every exporter state and integer `x`, after `SetFileFormat(x)` the
stored format lies between `PS_FILE` and `SVG_FILE`: it is `x` when `x` is in
that range, `PS_FILE` when `x` is below it and `SVG_FILE` when above.
`GetFileFormatAsString` maps `PS_FILE`, `EPS_FILE`, `PDF_FILE`, `TEX_FILE`,
`SVG_FILE` to "PS", "EPS", "PDF", "TeX", "SVG", five pairwise distinct strings,
and each `SetFileFormatToX` followed by `GetFileFormatAsString` gives the name
of `X`. -/
theorem C20_file_format (self : vtkGL2PSExporter) (x : Int) :
    (vtkGL2PSExporter.PS_FILE ≤ (self.SetFileFormat x).GetFileFormat ∧
      (self.SetFileFormat x).GetFileFormat ≤ vtkGL2PSExporter.SVG_FILE) ∧
    (vtkGL2PSExporter.PS_FILE ≤ x → x ≤ vtkGL2PSExporter.SVG_FILE →
      (self.SetFileFormat x).GetFileFormat = x) ∧
    (x < vtkGL2PSExporter.PS_FILE →
      (self.SetFileFormat x).GetFileFormat = vtkGL2PSExporter.PS_FILE) ∧
    (vtkGL2PSExporter.SVG_FILE < x →
      (self.SetFileFormat x).GetFileFormat = vtkGL2PSExporter.SVG_FILE) ∧
    ((self.SetFileFormat vtkGL2PSExporter.PS_FILE).GetFileFormatAsString = "PS" ∧
      (self.SetFileFormat vtkGL2PSExporter.EPS_FILE).GetFileFormatAsString = "EPS" ∧
      (self.SetFileFormat vtkGL2PSExporter.PDF_FILE).GetFileFormatAsString = "PDF" ∧
      (self.SetFileFormat vtkGL2PSExporter.TEX_FILE).GetFileFormatAsString = "TeX" ∧
      (self.SetFileFormat vtkGL2PSExporter.SVG_FILE).GetFileFormatAsString = "SVG") ∧
    ["PS", "EPS", "PDF", "TeX", "SVG"].Nodup ∧
    (self.SetFileFormatToPS.GetFileFormatAsString = "PS" ∧
      self.SetFileFormatToEPS.GetFileFormatAsString = "EPS" ∧
      self.SetFileFormatToPDF.GetFileFormatAsString = "PDF" ∧
      self.SetFileFormatToTeX.GetFileFormatAsString = "TeX" ∧
      self.SetFileFormatToSVG.GetFileFormatAsString = "SVG") := by
  have hstr : (self.SetFileFormat vtkGL2PSExporter.PS_FILE).GetFileFormatAsString = "PS" ∧
      (self.SetFileFormat vtkGL2PSExporter.EPS_FILE).GetFileFormatAsString = "EPS" ∧
      (self.SetFileFormat vtkGL2PSExporter.PDF_FILE).GetFileFormatAsString = "PDF" ∧
      (self.SetFileFormat vtkGL2PSExporter.TEX_FILE).GetFileFormatAsString = "TeX" ∧
      (self.SetFileFormat vtkGL2PSExporter.SVG_FILE).GetFileFormatAsString = "SVG" := by
    refine ⟨?_, ?_, ?_, ?_, ?_⟩ <;> rfl
  refine ⟨?_, ?_, ?_, ?_, hstr, by decide, hstr⟩
  · simp only [vtkGL2PSExporter.SetFileFormat, vtkGL2PSExporter.GetFileFormat,
      vtkGL2PSExporter.PS_FILE, vtkGL2PSExporter.SVG_FILE]
    constructor <;> split_ifs <;> omega
  · intro h1 h2
    simp only [vtkGL2PSExporter.SetFileFormat, vtkGL2PSExporter.GetFileFormat,
      vtkGL2PSExporter.PS_FILE, vtkGL2PSExporter.SVG_FILE] at h1 h2 ⊢
    split_ifs <;> omega
  · intro h1
    simp only [vtkGL2PSExporter.SetFileFormat, vtkGL2PSExporter.GetFileFormat, if_pos h1]
  · intro h1
    simp only [vtkGL2PSExporter.SetFileFormat, vtkGL2PSExporter.GetFileFormat,
      vtkGL2PSExporter.PS_FILE, vtkGL2PSExporter.SVG_FILE] at h1 ⊢
    split_ifs <;> omega

/-! ## Conversions and the data of the host array -/

theorem Convert_handle_is_view (h : Heap) (input : Ptr) (association : Int) (f : Field)
    (handle : ArrayHandle) (hf : tovtkm.Convert h input association = some f)
    (hd : f.Data = some handle) :
    ∃ tag A, h[input]? = some A ∧
      handle.Storage = ConcreteStorage.View tag input A.GetNumberOfTuples := by
  cases hA : h[input]? with
  | none => simp [tovtkm.Convert, hA] at hf
  | some A =>
    cases hname : A.Name with
    | none =>
      -- without a name only the default-constructed field can come out
      unfold tovtkm.Convert tovtkm.ConvertTyped tovtkm.ConvertPointField
        tovtkm.ConvertCellField at hf
      simp only [hA, hname] at hf
      split_ifs at hf <;> simp at hf <;> (subst hf; simp [Field.empty] at hd)
    | some name =>
      unfold tovtkm.Convert tovtkm.ConvertTyped at hf
      simp only [hA, ConvertPointField_eq _ _ h input A name hA hname,
        ConvertCellField_eq _ _ h input A name hA hname] at hf
      split_ifs at hf <;> simp only [Option.some.injEq] at hf <;> subst hf <;>
        first
        | (simp [Field.empty] at hd; done)
        | (simp only [Option.some.injEq] at hd; subst hd; exact ⟨_, A, rfl, rfl⟩)

/-- C14. Building a field: `tovtkm::Convert` reads the object table and returns
a field only; it returns no table, so every host object, `A` included, is after
the call what it was before, and any handle the field carries is a view holding
the address of `A` (no block is copied into it or moved).  Materializing: for
every field whose handle is a view over the live host array `A` at `p`,
`fromvtkm::Convert` leaves at `p` an object with the flat values, component
count, tuple count and block of `A`, and leaves every other object and the size
of the table as they were. -/
theorem C14_conversions_do_not_mutate_data (policy : vtkmOutputFilterPolicy) (h : Heap) :
    (∀ (input : Ptr) (association : Int) (f : Field) (handle : ArrayHandle),
      tovtkm.Convert h input association = some f → f.Data = some handle →
      ∃ tag A, h[input]? = some A ∧
        handle.Storage = ConcreteStorage.View tag input A.GetNumberOfTuples) ∧
    (∀ (f : Field) (handle : ArrayHandle) (tag : ContainerTag) (p : Ptr) (n : Nat)
        (A : vtkDataArray),
      f.Data = some handle → handle.Storage = ConcreteStorage.View tag p n → h[p]? = some A →
      ∃ B, (fromvtkm.Convert policy f h).heap[p]? = some B ∧
        B.Values = A.Values ∧ B.NumberOfComponents = A.NumberOfComponents ∧
        B.GetNumberOfTuples = A.GetNumberOfTuples ∧ B.Array = A.Array ∧
        (fromvtkm.Convert policy f h).heap.length = h.length ∧
        ∀ q, q ≠ p → (fromvtkm.Convert policy f h).heap[q]? = h[q]?) := by
  refine ⟨fun input association f handle => Convert_handle_is_view h input association f handle,
    ?_⟩
  intro f handle tag p n A hd hS hA
  by_cases hT : handle.T ∈ policy.FieldTypeList
  · obtain ⟨_, hheap⟩ := Convert_view policy f h handle tag p n hd hS hT
    rw [hheap]
    refine ⟨{ A with ReferenceCount := A.ReferenceCount + 1, Name := some f.Name }, ?_,
      rfl, rfl, rfl, rfl, ?_, ?_⟩
    · simp only [SetName, Register, Heap.getElem?_update, if_true, hA, Option.map_some']
    · simp only [SetName, Register, Heap.length_update]
    · intro q hq
      simp only [SetName, Register, Heap.getElem?_update, if_neg (Ne.symm hq)]
  · have hno : ∀ handle2, f.Data = some handle2 → handle2.T ∉ policy.FieldTypeList := by
      intro handle2 h2
      rw [hd] at h2
      simp only [Option.some.injEq] at h2
      subst h2
      exact hT
    rw [Convert_error policy f h hno]
    exact ⟨A, hA, rfl, rfl, rfl, rfl, rfl, fun _ _ => rfl⟩

/-! ## The copy of nested vectors -/

/-- C15 at a failing input. Two values of nested shape, outer width 2 and inner
width 1, `((1), (2))` and `((3), (4))`, on the generic copy path: the new array
has 2 components and 2 tuples, but its flat values are 1, 1, 4, 4 where the
row-major copy is 1, 2, 3, 4; the entry at flat index 1 is component 0 of outer
component 0 of value 0, not of outer component 1. -/
theorem C15_nested_copy_at_failing_input :
    (fromvtkm.ArrayConverter.CopyEachValue
        { ComponentType := ScalarType.VTK_FLOAT, shape := Shape.VecOfVec 2 1 }
        sample.nested []).heap.map
      (fun a => (a.NumberOfComponents, a.GetNumberOfTuples, a.Values)) =
      [(2, 2, [1, 1, 4, 4])] ∧
    (Value.inner (portalGet sample.nested 0) 1).getD 0 0 = 2 ∧
    (Value.inner (portalGet sample.nested 0) 0).getD 0 0 = 1 := by
  decide

/-! ## The generic element-wise copy -/

/-- The inner loop with its running index is a run of writes at
`base, base + 1, ...`. -/
theorem inner_loop_eq (p : Ptr) (f : Nat → Int) (m : Nat) (hh : Heap) (base : Nat) :
    (List.range m).foldl (fun (st : Heap × Nat) j => (SetValue st.1 p st.2 (f j), st.2 + 1))
        (hh, base) =
      ((List.range m).foldl (fun hh j => SetValue hh p (base + j) (f j)) hh, base + m) := by
  induction m with
  | zero => rfl
  | succ m ih =>
    rw [List.range_succ, List.foldl_append, List.foldl_append, ih]
    simp only [List.foldl_cons, List.foldl_nil]
    rfl

theorem flat_index_div (N i j : Nat) (hj : j < N) : (i * N + j) / N = i := by
  have hN : 0 < N := by omega
  rw [Nat.mul_comm, Nat.mul_add_div hN, Nat.div_eq_of_lt hj, Nat.add_zero]

theorem flat_index_mod (N i j : Nat) (hj : j < N) : (i * N + j) % N = j := by
  rw [Nat.mul_comm, Nat.mul_add_mod, Nat.mod_eq_of_lt hj]

/-- The two nested loops of the flat-vector copy are one write per flat index,
in increasing order. -/
theorem Vec_loops_eq (N : Nat) (portal : List Value) (p : Ptr) (n : Nat) (h0 : Heap) :
    (List.range n).foldl
        (fun (st : Heap × Nat) i =>
          (List.range N).foldl
            (fun (st : Heap × Nat) j =>
              (SetValue st.1 p st.2 ((portalGet portal i).component j), st.2 + 1))
            st)
        (h0, 0) =
      ((List.range (n * N)).foldl
        (fun hh idx => SetValue hh p idx ((portalGet portal (idx / N)).component (idx % N)))
        h0, n * N) := by
  induction n with
  | zero => simp
  | succ n ih =>
    rw [List.range_succ, List.foldl_append, ih]
    simp only [List.foldl_cons, List.foldl_nil]
    rw [inner_loop_eq p (fun j => (portalGet portal n).component j) N _ (n * N)]
    have hsplit : (n + 1) * N = n * N + N := by rw [Nat.add_mul, Nat.one_mul]
    rw [hsplit, List.range_add, List.foldl_append, List.foldl_map]
    congr 1
    apply List.foldl_ext
    intro hh j hj
    rw [List.mem_range] at hj
    rw [flat_index_div N n j hj, flat_index_mod N n j hj]

theorem CopyArrayContents_Vec_eq (N : Nat) (portal : List Value) (array : Ptr) (numValues : Nat)
    (h0 : Heap) :
    fromvtkm.CopyArrayContents (Shape.Vec N) portal array numValues h0 =
      (List.range (numValues * N)).foldl
        (fun hh idx =>
          SetValue hh array idx ((portalGet portal (idx / N)).component (idx % N)))
        h0 := by
  simp only [fromvtkm.CopyArrayContents, vtkPortalTraits.TagType,
    fromvtkm.CopyArrayContents_Vec, vtkPortalTraits.NUM_COMPONENTS]
  rw [Vec_loops_eq]

theorem CopyArrayContents_Scalar_eq (portal : List Value) (array : Ptr) (numValues : Nat)
    (h0 : Heap) :
    fromvtkm.CopyArrayContents Shape.Scalar portal array numValues h0 =
      (List.range numValues).foldl
        (fun hh idx => SetValue hh array idx (portalGet portal idx).toScalar) h0 := by
  simp only [fromvtkm.CopyArrayContents, vtkPortalTraits.TagType,
    fromvtkm.CopyArrayContents_Scalar]

/-- Writing `val idx` at every index below `k` of a list. -/
theorem writes_getElem? (val : Nat → Int) (k : Nat) (cs : List Int) (i : Nat) :
    ((List.range k).foldl (fun l idx => l.set idx (val idx)) cs)[i]? =
      if i < k then Option.map (fun _ => val i) (cs[i]?) else cs[i]? := by
  induction k with
  | zero => simp
  | succ k ih =>
    rw [List.range_succ, List.foldl_append]
    simp only [List.foldl_cons, List.foldl_nil]
    rw [List.getElem?_set']
    by_cases hki : k = i
    · subst hki
      rw [if_pos rfl, ih, if_neg (Nat.lt_irrefl k), if_pos (Nat.lt_succ_self k)]
      rfl
    · rw [if_neg hki, ih]
      by_cases hik : i < k
      · rw [if_pos hik, if_pos (by omega)]
      · rw [if_neg hik, if_neg (by omega)]

theorem writes_length (val : Nat → Int) (k : Nat) (cs : List Int) :
    ((List.range k).foldl (fun l idx => l.set idx (val idx)) cs).length = cs.length := by
  induction k with
  | zero => rfl
  | succ k ih =>
    rw [List.range_succ, List.foldl_append]
    simp only [List.foldl_cons, List.foldl_nil, List.length_set, ih]

/-- Writes through `SetValue` into the newest object of the table act on the
content of its block. -/
theorem foldl_SetValue_new (val : Nat → Int) (l : List Nat) (h : Heap) (a : vtkDataArray)
    (b : Buffer) (ha : a.Array = some b) :
    l.foldl (fun hh idx => SetValue hh h.length idx (val idx)) (h ++ [a]) =
      h ++ [{ a with Array := some { b with
        contents := l.foldl (fun l idx => l.set idx (val idx)) b.contents } }] := by
  induction l generalizing a b with
  | nil =>
    simp only [List.foldl_nil]
    cases a
    simp only at ha
    subst ha
    rfl
  | cons idx l ih =>
    simp only [List.foldl_cons]
    rw [SetValue, Heap.update_append_new]
    rw [ih _ { b with contents := b.contents.set idx (val idx) } (by simp [ha])]

/-- The array `CopyEachValue` allocates, before the values are copied in. -/
theorem CopyEachValue_allocated (ValueType : ScalarType) (numComps numValues : Nat) (h : Heap) :
    SetNumberOfTuples
        (SetNumberOfComponents (h ++ [vtkAOSDataArrayTemplate.New ValueType]) h.length numComps)
        h.length numValues =
      h ++ [{ DataType := ValueType, Class := ArrayClass.AOS, Name := none,
              NumberOfComponents := max 1 numComps, Size := numValues * max 1 numComps,
              Array := some { address := Address.ofArray h.length,
                              contents := List.replicate (numValues * max 1 numComps) 0 },
              FreeFunction := none, ReferenceCount := 1 }] := by
  rw [SetNumberOfComponents, Heap.update_append_new]
  rw [SetNumberOfTuples, Heap.update_append_new]
  rfl

/-- What the generic copy leaves, for a copy that is one write per flat index:
a new interleaved array whose own block holds the written values. -/
theorem CopyEachValue_written (T : ValueT) (portal : List Value) (h : Heap) (val : Nat → Int)
    (w : Nat) (hw : max 1 (vtkPortalTraits.NUM_COMPONENTS T.shape) = w)
    (hcopy : ∀ h0, fromvtkm.CopyArrayContents T.shape portal h.length portal.length h0 =
      (List.range (portal.length * w)).foldl
        (fun hh idx => SetValue hh h.length idx (val idx)) h0) :
    ∃ values : List Int,
      values.length = portal.length * w ∧
      (∀ idx, idx < portal.length * w → values[idx]? = some (val idx)) ∧
      fromvtkm.ArrayConverter.CopyEachValue T portal h =
        { heap := h ++ [{ DataType := T.ComponentType, Class := ArrayClass.AOS, Name := none,
                          NumberOfComponents := w, Size := portal.length * w,
                          Array := some { address := Address.ofArray h.length,
                                          contents := values },
                          FreeFunction := none, ReferenceCount := 1 }],
          Storage := ConcreteStorage.Other portal, Data := some h.length } := by
  refine ⟨(List.range (portal.length * w)).foldl (fun l idx => l.set idx (val idx))
    (List.replicate (portal.length * w) 0), ?_, ?_, ?_⟩
  · rw [writes_length, List.length_replicate]
  · intro idx hidx
    rw [writes_getElem?, if_pos hidx, List.getElem?_replicate, if_pos hidx]
    rfl
  · unfold fromvtkm.ArrayConverter.CopyEachValue
    simp only
    rw [CopyEachValue_allocated, hcopy, hw]
    rw [foldl_SetValue_new val _ h _ _ rfl]

/-- C16. On the generic copy path, for a handle with `n` values read through
`portal` and any object table: for a scalar value shape the result is a new
interleaved array with 1 component and `n` tuples, in a block of its own, whose
entry `i` is `portal.Get(i)` for every `i < n`; for a flat vector shape of width
`N ≥ 1` it has `N` components and `n` tuples and its flat entry `i * N + j` is
`portal.Get(i)[j]` for every `i < n`, `j < N`.  The copy is exactly one write
per flat index below `n` (resp. `n * N`), in increasing order, and no other. -/
theorem C16_generic_copy_scalars_and_vectors (ComponentType : ScalarType)
    (portal : List Value) (h : Heap) :
    (∃ array values,
      fromvtkm.ArrayConverter.CopyEachValue
          { ComponentType := ComponentType, shape := Shape.Scalar } portal h =
        { heap := h ++ [array], Storage := ConcreteStorage.Other portal,
          Data := some h.length } ∧
      array.Class = ArrayClass.AOS ∧ array.DataType = ComponentType ∧
      array.NumberOfComponents = 1 ∧ array.GetNumberOfTuples = portal.length ∧
      array.Array = some { address := Address.ofArray h.length, contents := values } ∧
      array.Values = values ∧ values.length = portal.length ∧
      ∀ i, i < portal.length → values[i]? = some (portalGet portal i).toScalar) ∧
    (∀ N, 1 ≤ N →
      ∃ array values,
        fromvtkm.ArrayConverter.CopyEachValue
            { ComponentType := ComponentType, shape := Shape.Vec N } portal h =
          { heap := h ++ [array], Storage := ConcreteStorage.Other portal,
            Data := some h.length } ∧
        array.Class = ArrayClass.AOS ∧ array.DataType = ComponentType ∧
        array.NumberOfComponents = N ∧ array.GetNumberOfTuples = portal.length ∧
        array.Array = some { address := Address.ofArray h.length, contents := values } ∧
        array.Values = values ∧ values.length = portal.length * N ∧
        ∀ i j, i < portal.length → j < N →
          values[i * N + j]? = some ((portalGet portal i).component j)) ∧
    (∀ (array : Ptr) (numValues : Nat) (h0 : Heap),
      fromvtkm.CopyArrayContents Shape.Scalar portal array numValues h0 =
        (List.range numValues).foldl
          (fun hh idx => SetValue hh array idx (portalGet portal idx).toScalar) h0) ∧
    (∀ (N : Nat) (array : Ptr) (numValues : Nat) (h0 : Heap),
      fromvtkm.CopyArrayContents (Shape.Vec N) portal array numValues h0 =
        (List.range (numValues * N)).foldl
          (fun hh idx =>
            SetValue hh array idx ((portalGet portal (idx / N)).component (idx % N)))
          h0) := by
  refine ⟨?_, ?_, CopyArrayContents_Scalar_eq portal, fun N => CopyArrayContents_Vec_eq N portal⟩
  · obtain ⟨values, hlen, hval, hres⟩ :=
      CopyEachValue_written { ComponentType := ComponentType, shape := Shape.Scalar } portal h
        (fun idx => (portalGet portal idx).toScalar) 1 rfl
        (fun h0 => by rw [CopyArrayContents_Scalar_eq, Nat.mul_one])
    rw [Nat.mul_one] at hlen
    refine ⟨_, values, hres, rfl, rfl, rfl, ?_, rfl, ?_, hlen, ?_⟩
    · simp [vtkDataArray.GetNumberOfTuples]
    · simp only [vtkDataArray.Values]
      exact List.take_of_length_le (by omega)
    · intro i hi
      exact hval i (by omega)
  · intro N hN
    have hpos : 0 < N := hN
    obtain ⟨values, hlen, hval, hres⟩ :=
      CopyEachValue_written { ComponentType := ComponentType, shape := Shape.Vec N } portal h
        (fun idx => (portalGet portal (idx / N)).component (idx % N)) N
        (Nat.max_eq_right hN)
        (fun h0 => CopyArrayContents_Vec_eq N portal h.length portal.length h0)
    refine ⟨_, values, hres, rfl, rfl, rfl, ?_, rfl, ?_, hlen, ?_⟩
    · simp only [vtkDataArray.GetNumberOfTuples]
      exact Nat.mul_div_cancel _ hpos
    · simp only [vtkDataArray.Values]
      exact List.take_of_length_le (by omega)
    · intro i j hi hj
      have hidx : i * N + j < portal.length * N := by
        calc i * N + j < i * N + N := by omega
          _ = (i + 1) * N := by rw [Nat.add_mul, Nat.one_mul]
          _ ≤ portal.length * N := Nat.mul_le_mul_right N hi
      rw [hval (i * N + j) hidx]
      simp only [flat_index_div N i j hj, flat_index_mod N i j hj]

/-! ## Witnesses at sample inputs, continued -/

/-- C12 at the bit array `sample.bits` and at the planar `sample.velocity`. -/
theorem C12_forward_dispatch_failure_policy_witness :
    tovtkm.Convert [sample.bits] 0 FIELD_ASSOCIATION_POINTS = some Field.empty ∧
    tovtkm.Convert sample.heap 0 FIELD_ASSOCIATION_CELLS =
      tovtkm.ConvertTyped ScalarType.VTK_DOUBLE ContainerTag.vtkSOAArrayContainerTag
        sample.heap 0 FIELD_ASSOCIATION_CELLS :=
  ⟨(C12_forward_dispatch_failure_policy [sample.bits] 0 sample.bits FIELD_ASSOCIATION_POINTS
      rfl).1 (Or.inl rfl),
   (C12_forward_dispatch_failure_policy sample.heap 0 sample.velocity FIELD_ASSOCIATION_CELLS
      rfl).2.2 rfl rfl⟩

/-- C18 at `sample.velocity` and the association value 2. -/
theorem C18_typed_convert_other_association_witness :
    tovtkm.ConvertTyped ScalarType.VTK_DOUBLE ContainerTag.vtkSOAArrayContainerTag
      sample.heap 0 2 = some Field.empty :=
  C18_typed_convert_other_association ScalarType.VTK_DOUBLE
    ContainerTag.vtkSOAArrayContainerTag sample.heap 0 2 (by decide) (by decide)

/-- C11 at `sample.mixed`: the valid `sample.pressure` followed by the malformed
`sample.wide`. -/
theorem C11_forward_partial_failure_isolation_witness :
    ∃ fpre fpost fcells,
      tovtkm.ProcessFields sample.mixed
          { PointData := [Slot.data 0] ++ Slot.data 1 :: [], CellData := [] }
          { Fields := [] } tovtkm.FieldsFlag.Points =
        some { Fields := [] ++ fpre ++ Field.empty :: fpost ++ fcells } ∧
      fpre.length = 1 ∧ fpost.length = 0 := by
  obtain ⟨fpre, fpost, fcells, h1, h2, _, h4⟩ :=
    (C11_forward_partial_failure_isolation sample.mixed [Slot.data 0] [] [] { Fields := [] }
      tovtkm.FieldsFlag.Points 1).1 (by decide) (by decide) _ rfl
  exact ⟨fpre, fpost, fcells, h4, h1.length_eq.symm, h2.length_eq.symm⟩

/-- C14 at the view field `sample.velocityField` over `sample.velocity`. -/
theorem C14_conversions_do_not_mutate_data_witness :
    ∃ B, (fromvtkm.Convert sample.policy sample.velocityField sample.heap).heap[0]? = some B ∧
      B.Values = [1, 2, 3, 4, 5, 6] ∧ B.NumberOfComponents = 3 ∧ B.GetNumberOfTuples = 2 := by
  obtain ⟨B, h1, h2, h3, h4, _⟩ :=
    (C14_conversions_do_not_mutate_data sample.policy sample.heap).2 sample.velocityField _
      ContainerTag.vtkSOAArrayContainerTag 0 2 sample.velocity rfl rfl rfl
  exact ⟨B, h1, h2, h3, h4⟩

end VTK
